import Mathlib

/-!
# Verification of the Othello search engine (src/agent.py)

This file embeds the move-selection engine of `src/agent.py` in Lean and
proves/refutes the specification claims about it.

The module `othello_shared` (providing `get_possible_moves`, `play_move`,
`get_score`) is not part of the repository sources; following §6 of the
specification it is modelled as an abstract interface (`Shared`): the engine
is specified for an arbitrary, fixed oracle supplying legal moves, move
application and piece counts.

Embedding conventions:
* a board is a list of rows of integer cells (0 empty, 1 dark, 2 light);
* Python's `float("-inf")`/`float("inf")` sentinels and the integer utilities
  they are compared against live in `V := WithBot (WithTop ℤ)` (`⊥` is `-inf`,
  `⊤` is `inf`, integers embed via `iv`);
* the global mutable dict `cache` is threaded explicitly: each node function
  receives the current cache and returns the updated one, and the top-level
  selectors receive the pre-existing global cache (which they discard,
  mirroring `cache = dict()`) and return the move together with the cache
  left behind;
* Python's `limit` is embedded as a natural number: `not limit` is `limit = 0`,
  and `limit - 1` is the predecessor (the unbounded `-1` mode of `run_ai` is
  outside every claim and not modelled).
-/

set_option maxHeartbeats 1600000
set_option linter.unreachableTactic false
set_option linter.unusedTactic false

namespace Othello

/-- A board: rows of cells, `0` empty, `1` dark, `2` light (see `run_ai`). -/
abbrev Board := List (List ℤ)

/-- A move: a pair of integer coordinates, as in the Python tuples. -/
abbrev Move := ℤ × ℤ

/-- Search values: integers extended with `⊥` (Python `float("-inf")`) and
`⊤` (Python `float("inf")`). -/
abbrev V := WithBot (WithTop ℤ)

/-- Embed an integer utility into the value type `V`. -/
def iv (z : ℤ) : V := ((z : WithTop ℤ) : V)

/-- The global `cache` dict: a partial map from boards to values. -/
def Cache := Board → Option V

/-- The fresh dict allocated by `cache = dict()`. -/
def Cache.empty : Cache := fun _ => none

/-- Store `cache[board] = v`. -/
def Cache.insert (g : Cache) (b : Board) (v : V) : Cache :=
  fun b' => if b' = b then some v else g b'

/-- Modelled from the spec: the external collaborator `othello_shared`
(§6 of the spec) is absent from `src/`; only its interface is specified:
`legalMoves(board, color)` (possibly empty), `applyMove(board, color, move)`
and `score(board) → (countPlayerA, countPlayerB)`.  The engine is therefore
verified for an arbitrary such oracle. -/
structure Shared where
  get_possible_moves : Board → ℤ → List Move
  play_move : Board → ℤ → ℤ → ℤ → Board
  get_score : Board → ℤ × ℤ

/-- Function `compute_utility` from src/agent.py: score differential for `color`. -/
def compute_utility (S : Shared) (board : Board) (color : ℤ) : ℤ :=
  let p := S.get_score board
  if color = 1 then p.1 - p.2 else p.2 - p.1

/-- Cell access `board[i][j]` (all accesses performed by the source are
within bounds; out-of-range reads are totalised to `0`). -/
def cell (board : Board) (i j : ℤ) : ℤ :=
  if 0 ≤ i ∧ 0 ≤ j then (board.getD i.toNat []).getD j.toNat 0 else 0

/-- Function `check_empty` from src/agent.py: is there an empty cell in the
8-neighbourhood of `c` (clipped to the board)? -/
def check_empty (board : Board) (c : ℤ × ℤ) : Bool :=
  let n : ℤ := board.length
  [c.1 - 1, c.1, c.1 + 1].any fun i =>
    decide (0 ≤ i ∧ i ≤ n - 1) &&
      ([c.2 - 1, c.2, c.2 + 1].any fun j =>
        decide ((0 ≤ j ∧ j ≤ n - 1) ∧ (i, j) ≠ c ∧ cell board i j = 0))

/-- Function `count_empty` from src/agent.py: number of pieces of `color` that have an
empty cell next to them. -/
def count_empty (board : Board) (color : ℤ) : ℕ :=
  let n := board.length
  (List.range n).foldl
    (fun total i =>
      total + ((List.range n).countP fun j =>
        decide (cell board (i : ℤ) (j : ℤ) = color) &&
          check_empty board ((i : ℤ), (j : ℤ))))
    0

/-- Function `compute_heuristic` from src/agent.py (Python float arithmetic is
embedded as exact rational arithmetic). -/
def compute_heuristic (S : Shared) (board : Board) (color : ℤ) : ℚ :=
  let opponent : ℤ := if color = 1 then 2 else 1
  let my_mobility : ℚ := (S.get_possible_moves board color).length
  let opp_mobility : ℚ := (S.get_possible_moves board opponent).length
  let r1 : ℚ :=
    if my_mobility + opp_mobility ≠ 0 then
      100 * ((my_mobility - opp_mobility) / (my_mobility + opp_mobility))
    else 0
  let my_potmobility : ℚ := count_empty board color
  let opp_potmobility : ℚ := count_empty board opponent
  let r2 : ℚ :=
    if my_potmobility + opp_potmobility ≠ 0 then
      100 * ((my_potmobility - opp_potmobility) / (my_potmobility + opp_potmobility))
    else 0
  let n : ℤ := board.length
  let corners : List (ℤ × ℤ) := [(0, 0), (0, n - 1), (n - 1, 0), (n - 1, n - 1)]
  let my_corners : ℚ := corners.countP fun c => decide (cell board c.1 c.2 = color)
  let opp_corners : ℚ := corners.countP fun c => decide (cell board c.1 c.2 = opponent)
  let r3 : ℚ :=
    if my_corners + opp_corners ≠ 0 then
      100 * ((my_corners - opp_corners) / (my_corners + opp_corners))
    else 0
  r1 + r2 + r3

/-! ## The search loops

The `for move in moves:` loops of the four node functions, as explicit
recursions over the move list.  `f` performs the recursive child call on the
current cache and returns the child's value and the updated cache. -/

/-- Loop of `minimax_max_node`: keep the move with the strictly greatest
returned utility. -/
def mmMaxLoop (f : Move → Cache → V × Cache) :
    List Move → Option Move → V → Cache → Option Move × V × Cache
  | [], best, maxu, g => (best, maxu, g)
  | m :: rest, best, maxu, g =>
    let r := f m g
    if maxu < r.1 then mmMaxLoop f rest (some m) r.1 r.2
    else mmMaxLoop f rest best maxu r.2

/-- Loop of `minimax_min_node`: keep the move with the strictly least
returned utility. -/
def mmMinLoop (f : Move → Cache → V × Cache) :
    List Move → Option Move → V → Cache → Option Move × V × Cache
  | [], best, minu, g => (best, minu, g)
  | m :: rest, best, minu, g =>
    let r := f m g
    if r.1 < minu then mmMinLoop f rest (some m) r.1 r.2
    else mmMinLoop f rest best minu r.2

/-- Loop of `alphabeta_max_node` over the (possibly sorted) successor list:
track the best value, break on `max_util >= beta`, then raise `alpha`. -/
def abMaxLoop (f : Board → V → V → Cache → V × Cache) :
    List (Board × Move) → V → V → Option Move → V → Cache → Option Move × V × Cache
  | [], _, _, best, maxu, g => (best, maxu, g)
  | s :: rest, alpha, beta, best, maxu, g =>
    let r := f s.1 alpha beta g
    let best' := if maxu < r.1 then some s.2 else best
    let maxu' := if maxu < r.1 then r.1 else maxu
    if beta ≤ maxu' then (best', maxu', r.2)
    else abMaxLoop f rest (max alpha maxu') beta best' maxu' r.2

/-- Loop of `alphabeta_min_node`: break on `min_util <= alpha`, then lower
`beta`. -/
def abMinLoop (f : Board → V → V → Cache → V × Cache) :
    List (Board × Move) → V → V → Option Move → V → Cache → Option Move × V × Cache
  | [], _, _, best, minu, g => (best, minu, g)
  | s :: rest, alpha, beta, best, minu, g =>
    let r := f s.1 alpha beta g
    let best' := if r.1 < minu then some s.2 else best
    let minu' := if r.1 < minu then r.1 else minu
    if minu' ≤ alpha then (best', minu', r.2)
    else abMinLoop f rest alpha (min beta minu') best' minu' r.2

/-! ## Minimax (src/agent.py lines 98–170) -/

mutual

/-- Function `minimax_min_node` from src/agent.py. -/
def minimax_min_node (S : Shared) (board : Board) (color : ℤ) (limit : ℕ)
    (caching : Bool) (g : Cache) : Option Move × V × Cache :=
  match caching, g board with
  | true, some v => (none, v, g)
  | _, _ =>
    let opponent : ℤ := if color = 1 then 2 else 1
    let moves := S.get_possible_moves board opponent
    match limit with
    | 0 =>
      let util := iv (compute_utility S board color)
      (none, util, if caching then g.insert board util else g)
    | limit' + 1 =>
      if moves = [] then
        let util := iv (compute_utility S board color)
        (none, util, if caching then g.insert board util else g)
      else
        let r := mmMinLoop
          (fun m g' =>
            let q := minimax_max_node S (S.play_move board opponent m.1 m.2)
              color limit' caching g'
            (q.2.1, q.2.2))
          moves none ⊤ g
        (r.1, r.2.1, if caching then Cache.insert r.2.2 board r.2.1 else r.2.2)

/-- Function `minimax_max_node` from src/agent.py. -/
def minimax_max_node (S : Shared) (board : Board) (color : ℤ) (limit : ℕ)
    (caching : Bool) (g : Cache) : Option Move × V × Cache :=
  match caching, g board with
  | true, some v => (none, v, g)
  | _, _ =>
    let moves := S.get_possible_moves board color
    match limit with
    | 0 =>
      let util := iv (compute_utility S board color)
      (none, util, if caching then g.insert board util else g)
    | limit' + 1 =>
      if moves = [] then
        let util := iv (compute_utility S board color)
        (none, util, if caching then g.insert board util else g)
      else
        let r := mmMaxLoop
          (fun m g' =>
            let q := minimax_min_node S (S.play_move board color m.1 m.2)
              color limit' caching g'
            (q.2.1, q.2.2))
          moves none ⊥ g
        (r.1, r.2.1, if caching then Cache.insert r.2.2 board r.2.1 else r.2.2)

end

/-- Function `select_move_minimax` from src/agent.py: reset the global cache to a
fresh dict, search, return the chosen move (the returned cache models the
global dict left behind by the call). -/
def select_move_minimax (S : Shared) (board : Board) (color : ℤ) (limit : ℕ)
    (caching : Bool) (_g : Cache) : Option Move × Cache :=
  let r := minimax_max_node S board color limit caching Cache.empty
  (r.1, r.2.2)

/-! ## Alpha-beta (src/agent.py lines 174–268) -/

mutual

/-- Function `alphabeta_min_node` from src/agent.py. -/
def alphabeta_min_node (S : Shared) (board : Board) (color : ℤ) (alpha beta : V)
    (limit : ℕ) (caching ordering : Bool) (g : Cache) : Option Move × V × Cache :=
  match caching, g board with
  | true, some v => (none, v, g)
  | _, _ =>
    let opponent : ℤ := if color = 1 then 2 else 1
    let moves := S.get_possible_moves board opponent
    match limit with
    | 0 =>
      let util := iv (compute_utility S board color)
      (none, util, if caching then g.insert board util else g)
    | limit' + 1 =>
      if moves = [] then
        let util := iv (compute_utility S board color)
        (none, util, if caching then g.insert board util else g)
      else
        let successors := moves.map fun m => (S.play_move board opponent m.1 m.2, m)
        let successors :=
          if ordering then
            successors.insertionSort fun s t =>
              compute_utility S s.1 color ≤ compute_utility S t.1 color
          else successors
        let r := abMinLoop
          (fun b' a b g' =>
            let q := alphabeta_max_node S b' color a b limit' caching ordering g'
            (q.2.1, q.2.2))
          successors alpha beta none ⊤ g
        (r.1, r.2.1, if caching then Cache.insert r.2.2 board r.2.1 else r.2.2)

/-- Function `alphabeta_max_node` from src/agent.py. -/
def alphabeta_max_node (S : Shared) (board : Board) (color : ℤ) (alpha beta : V)
    (limit : ℕ) (caching ordering : Bool) (g : Cache) : Option Move × V × Cache :=
  match caching, g board with
  | true, some v => (none, v, g)
  | _, _ =>
    let moves := S.get_possible_moves board color
    match limit with
    | 0 =>
      let util := iv (compute_utility S board color)
      (none, util, if caching then g.insert board util else g)
    | limit' + 1 =>
      if moves = [] then
        let util := iv (compute_utility S board color)
        (none, util, if caching then g.insert board util else g)
      else
        let successors := moves.map fun m => (S.play_move board color m.1 m.2, m)
        let successors :=
          if ordering then
            successors.insertionSort fun s t =>
              compute_utility S t.1 color ≤ compute_utility S s.1 color
          else successors
        let r := abMaxLoop
          (fun b' a b g' =>
            let q := alphabeta_min_node S b' color a b limit' caching ordering g'
            (q.2.1, q.2.2))
          successors alpha beta none ⊥ g
        (r.1, r.2.1, if caching then Cache.insert r.2.2 board r.2.1 else r.2.2)

end

/-- Function `select_move_alphabeta` from src/agent.py: fresh cache, then the root
max node is invoked with window `(-inf, inf)` and depth `limit - 1`. -/
def select_move_alphabeta (S : Shared) (board : Board) (color : ℤ) (limit : ℕ)
    (caching ordering : Bool) (_g : Cache) : Option Move × Cache :=
  let r := alphabeta_max_node S board color ⊥ ⊤ (limit - 1) caching ordering Cache.empty
  (r.1, r.2.2)

/-! ## Evaluator-generic node functions

The node functions again, abstracted over the static evaluator `ev` used at
leaves (and as the move-ordering sort key).  Claim C10 is settled by proving
that the source functions coincide with these at `ev := compute_utility S`:
every leaf evaluation of the search is the exact score differential, and
`compute_heuristic` plays no role in any search function. -/

mutual

def minimax_min_node_ev (S : Shared) (ev : Board → ℤ → ℤ) (board : Board)
    (color : ℤ) (limit : ℕ) (caching : Bool) (g : Cache) : Option Move × V × Cache :=
  match caching, g board with
  | true, some v => (none, v, g)
  | _, _ =>
    let opponent : ℤ := if color = 1 then 2 else 1
    let moves := S.get_possible_moves board opponent
    match limit with
    | 0 =>
      let util := iv (ev board color)
      (none, util, if caching then g.insert board util else g)
    | limit' + 1 =>
      if moves = [] then
        let util := iv (ev board color)
        (none, util, if caching then g.insert board util else g)
      else
        let r := mmMinLoop
          (fun m g' =>
            let q := minimax_max_node_ev S ev (S.play_move board opponent m.1 m.2)
              color limit' caching g'
            (q.2.1, q.2.2))
          moves none ⊤ g
        (r.1, r.2.1, if caching then Cache.insert r.2.2 board r.2.1 else r.2.2)

def minimax_max_node_ev (S : Shared) (ev : Board → ℤ → ℤ) (board : Board)
    (color : ℤ) (limit : ℕ) (caching : Bool) (g : Cache) : Option Move × V × Cache :=
  match caching, g board with
  | true, some v => (none, v, g)
  | _, _ =>
    let moves := S.get_possible_moves board color
    match limit with
    | 0 =>
      let util := iv (ev board color)
      (none, util, if caching then g.insert board util else g)
    | limit' + 1 =>
      if moves = [] then
        let util := iv (ev board color)
        (none, util, if caching then g.insert board util else g)
      else
        let r := mmMaxLoop
          (fun m g' =>
            let q := minimax_min_node_ev S ev (S.play_move board color m.1 m.2)
              color limit' caching g'
            (q.2.1, q.2.2))
          moves none ⊥ g
        (r.1, r.2.1, if caching then Cache.insert r.2.2 board r.2.1 else r.2.2)

end

mutual

def alphabeta_min_node_ev (S : Shared) (ev : Board → ℤ → ℤ) (board : Board)
    (color : ℤ) (alpha beta : V) (limit : ℕ) (caching ordering : Bool)
    (g : Cache) : Option Move × V × Cache :=
  match caching, g board with
  | true, some v => (none, v, g)
  | _, _ =>
    let opponent : ℤ := if color = 1 then 2 else 1
    let moves := S.get_possible_moves board opponent
    match limit with
    | 0 =>
      let util := iv (ev board color)
      (none, util, if caching then g.insert board util else g)
    | limit' + 1 =>
      if moves = [] then
        let util := iv (ev board color)
        (none, util, if caching then g.insert board util else g)
      else
        let successors := moves.map fun m => (S.play_move board opponent m.1 m.2, m)
        let successors :=
          if ordering then
            successors.insertionSort fun s t => ev s.1 color ≤ ev t.1 color
          else successors
        let r := abMinLoop
          (fun b' a b g' =>
            let q := alphabeta_max_node_ev S ev b' color a b limit' caching ordering g'
            (q.2.1, q.2.2))
          successors alpha beta none ⊤ g
        (r.1, r.2.1, if caching then Cache.insert r.2.2 board r.2.1 else r.2.2)

def alphabeta_max_node_ev (S : Shared) (ev : Board → ℤ → ℤ) (board : Board)
    (color : ℤ) (alpha beta : V) (limit : ℕ) (caching ordering : Bool)
    (g : Cache) : Option Move × V × Cache :=
  match caching, g board with
  | true, some v => (none, v, g)
  | _, _ =>
    let moves := S.get_possible_moves board color
    match limit with
    | 0 =>
      let util := iv (ev board color)
      (none, util, if caching then g.insert board util else g)
    | limit' + 1 =>
      if moves = [] then
        let util := iv (ev board color)
        (none, util, if caching then g.insert board util else g)
      else
        let successors := moves.map fun m => (S.play_move board color m.1 m.2, m)
        let successors :=
          if ordering then
            successors.insertionSort fun s t => ev t.1 color ≤ ev s.1 color
          else successors
        let r := abMaxLoop
          (fun b' a b g' =>
            let q := alphabeta_min_node_ev S ev b' color a b limit' caching ordering g'
            (q.2.1, q.2.2))
          successors alpha beta none ⊥ g
        (r.1, r.2.1, if caching then Cache.insert r.2.2 board r.2.1 else r.2.2)

end

def select_move_minimax_ev (S : Shared) (ev : Board → ℤ → ℤ) (board : Board)
    (color : ℤ) (limit : ℕ) (caching : Bool) (_g : Cache) : Option Move × Cache :=
  let r := minimax_max_node_ev S ev board color limit caching Cache.empty
  (r.1, r.2.2)

def select_move_alphabeta_ev (S : Shared) (ev : Board → ℤ → ℤ) (board : Board)
    (color : ℤ) (limit : ℕ) (caching ordering : Bool) (_g : Cache) :
    Option Move × Cache :=
  let r := alphabeta_max_node_ev S ev board color ⊥ ⊤ (limit - 1) caching ordering Cache.empty
  (r.1, r.2.2)

/-! ## Pure (cache-free) views of the loops, for the proofs -/

/-- Loop `mmMaxLoop` with a cache-independent child evaluator. -/
def pureMaxLoop (fv : Move → V) : List Move → Option Move → V → Option Move × V
  | [], best, maxu => (best, maxu)
  | m :: rest, best, maxu =>
    if maxu < fv m then pureMaxLoop fv rest (some m) (fv m)
    else pureMaxLoop fv rest best maxu

/-- Loop `mmMinLoop` with a cache-independent child evaluator. -/
def pureMinLoop (fv : Move → V) : List Move → Option Move → V → Option Move × V
  | [], best, minu => (best, minu)
  | m :: rest, best, minu =>
    if fv m < minu then pureMinLoop fv rest (some m) (fv m)
    else pureMinLoop fv rest best minu

/-- Loop `abMaxLoop` with a cache-independent child evaluator. -/
def pureAbMaxLoop (fv : Board → V → V → V) :
    List (Board × Move) → V → V → Option Move → V → Option Move × V
  | [], _, _, best, maxu => (best, maxu)
  | s :: rest, alpha, beta, best, maxu =>
    let nu := fv s.1 alpha beta
    let best' := if maxu < nu then some s.2 else best
    let maxu' := if maxu < nu then nu else maxu
    if beta ≤ maxu' then (best', maxu')
    else pureAbMaxLoop fv rest (max alpha maxu') beta best' maxu'

/-- Loop `abMinLoop` with a cache-independent child evaluator. -/
def pureAbMinLoop (fv : Board → V → V → V) :
    List (Board × Move) → V → V → Option Move → V → Option Move × V
  | [], _, _, best, minu => (best, minu)
  | s :: rest, alpha, beta, best, minu =>
    let nu := fv s.1 alpha beta
    let best' := if nu < minu then some s.2 else best
    let minu' := if nu < minu then nu else minu
    if minu' ≤ alpha then (best', minu')
    else pureAbMinLoop fv rest alpha (min beta minu') best' minu'

/-! ## Root values of the two searches (caching off) -/

/-- Value computed by `minimax_max_node` (caching off, fresh cache). -/
def mmMaxVal (S : Shared) (b : Board) (c : ℤ) (l : ℕ) : V :=
  (minimax_max_node S b c l false Cache.empty).2.1

/-- Value computed by `minimax_min_node` (caching off, fresh cache). -/
def mmMinVal (S : Shared) (b : Board) (c : ℤ) (l : ℕ) : V :=
  (minimax_min_node S b c l false Cache.empty).2.1

/-- Value computed by `alphabeta_max_node` (caching off, fresh cache). -/
def abMaxVal (S : Shared) (b : Board) (c : ℤ) (alpha beta : V) (l : ℕ)
    (ord : Bool) : V :=
  (alphabeta_max_node S b c alpha beta l false ord Cache.empty).2.1

/-- Value computed by `alphabeta_min_node` (caching off, fresh cache). -/
def abMinVal (S : Shared) (b : Board) (c : ℤ) (alpha beta : V) (l : ℕ)
    (ord : Bool) : V :=
  (alphabeta_min_node S b c alpha beta l false ord Cache.empty).2.1

/-- The successor list iterated by `alphabeta_max_node` for `b` (optionally
sorted, descending in the successor's static utility). -/
def abMaxSuccs (S : Shared) (b : Board) (c : ℤ) (ord : Bool) : List (Board × Move) :=
  let ss := (S.get_possible_moves b c).map fun m => (S.play_move b c m.1 m.2, m)
  if ord then
    ss.insertionSort fun s t => compute_utility S t.1 c ≤ compute_utility S s.1 c
  else ss

/-- The successor list iterated by `alphabeta_min_node` for `b` (optionally
sorted, ascending in the successor's static utility). -/
def abMinSuccs (S : Shared) (b : Board) (c : ℤ) (ord : Bool) : List (Board × Move) :=
  let opponent : ℤ := if c = 1 then 2 else 1
  let ss := (S.get_possible_moves b opponent).map fun m => (S.play_move b opponent m.1 m.2, m)
  if ord then
    ss.insertionSort fun s t => compute_utility S s.1 c ≤ compute_utility S t.1 c
  else ss

/-- The fail-soft alpha-beta approximation relation: within the window the
approximate value `v` is exact; outside it, it is a sound bound on `t`. -/
def ABapprox (v t alpha beta : V) : Prop :=
  (v ≤ alpha → t ≤ v) ∧ (alpha < v → v < beta → v = t) ∧ (beta ≤ v → v ≤ t)

/-- A cache all of whose entries are the static utilities of their boards
(the only kind of entry a depth-1 search ever writes). -/
def CacheUtil (S : Shared) (c : ℤ) (g : Cache) : Prop :=
  ∀ b v, g b = some v → v = iv (compute_utility S b c)

/-! ## Spec-side definitions for the evaluator claims -/

/-- Modelled from the spec: `score(board) → (countPlayerA, countPlayerB)`
(the `get_score` of the absent `othello_shared`), counting the pieces of each
color; color 1 is dark and color 2 is light. -/
def countCells (board : Board) (color : ℤ) : ℕ :=
  (board.map fun row => row.countP fun x => decide (x = color)).sum

/-- Modelled from the spec: the concrete `get_score` interface instance. -/
def othello_get_score (board : Board) : ℤ × ℤ :=
  ((countCells board 1 : ℤ), (countCells board 2 : ℤ))

/-- The mobility component of the heuristic, as the spec states it. -/
def mobilityTerm (S : Shared) (board : Board) (color : ℤ) : ℚ :=
  let opponent : ℤ := if color = 1 then 2 else 1
  let m : ℚ := (S.get_possible_moves board color).length
  let o : ℚ := (S.get_possible_moves board opponent).length
  if m + o ≠ 0 then 100 * ((m - o) / (m + o)) else 0

/-- The potential-mobility component of the heuristic, as the spec states it. -/
def potential_mobilityTerm (board : Board) (color : ℤ) : ℚ :=
  let opponent : ℤ := if color = 1 then 2 else 1
  let m : ℚ := count_empty board color
  let o : ℚ := count_empty board opponent
  if m + o ≠ 0 then 100 * ((m - o) / (m + o)) else 0

/-- The corner-control component of the heuristic, as the spec states it. -/
def cornerTerm (board : Board) (color : ℤ) : ℚ :=
  let opponent : ℤ := if color = 1 then 2 else 1
  let n : ℤ := board.length
  let corners : List (ℤ × ℤ) := [(0, 0), (0, n - 1), (n - 1, 0), (n - 1, n - 1)]
  let m : ℚ := corners.countP fun c => decide (cell board c.1 c.2 = color)
  let o : ℚ := corners.countP fun c => decide (cell board c.1 c.2 = opponent)
  if m + o ≠ 0 then 100 * ((m - o) / (m + o)) else 0

/-! ## Concrete oracle instances used as test inputs

`Sdemo` is a trivial oracle (no legal moves anywhere, score by piece count).
`Scex` is a small finite game: boards are one-cell labels, and the move
tables below realise the game tree rooted at `[[0]]` (for color 1)

* `[[0]] → [[1]], [[2]]`; `[[1]] → [[3]], [[4]]`; `[[2]] → [[4]], [[5]]`
  (note the shared child `[[4]]`: a transposition);
* `[[3]] → [[103]]`; `[[4]] → [[105]], [[110]]`; `[[5]] → [[107]]`;
* a label `[[k]]` has score `(k, 100)`, so the leaf utilities for color 1
  are `3`, `5`, `10`, `7`. -/

def demoMoves : Board → ℤ → List Move := fun _ _ => []

def Sdemo : Shared where
  get_possible_moves := demoMoves
  play_move := fun b _ _ _ => b
  get_score := othello_get_score

def cexMoves : Board → ℤ → List Move := fun b c =>
  if b = [[0]] ∧ c = 1 then [(0, 0), (0, 1)]
  else if b = [[1]] ∧ c = 2 then [(0, 0), (0, 1)]
  else if b = [[2]] ∧ c = 2 then [(0, 0), (0, 1)]
  else if b = [[3]] ∧ c = 1 then [(0, 0)]
  else if b = [[4]] ∧ c = 1 then [(0, 0), (0, 1)]
  else if b = [[5]] ∧ c = 1 then [(0, 0)]
  else []

def cexPlay : Board → ℤ → ℤ → ℤ → Board := fun b _ _ j =>
  if b = [[0]] then (if j = 0 then [[1]] else [[2]])
  else if b = [[1]] then (if j = 0 then [[3]] else [[4]])
  else if b = [[2]] then (if j = 0 then [[4]] else [[5]])
  else if b = [[3]] then [[103]]
  else if b = [[4]] then (if j = 0 then [[105]] else [[110]])
  else if b = [[5]] then [[107]]
  else b

def Scex : Shared where
  get_possible_moves := cexMoves
  play_move := cexPlay
  get_score := fun b => ((b.getD 0 []).getD 0 0, 100)

/-! # Theorems -/

/-- Integers embedded in `V` are above bottom. -/
theorem bot_lt_iv (z : ℤ) : (⊥ : V) < iv z := by
  exact WithBot.bot_lt_coe _

/-- Integers embedded in `V` are below top. -/
theorem iv_lt_top (z : ℤ) : iv z < (⊤ : V) := by
  rw [show (⊤ : V) = ((⊤ : WithTop ℤ) : V) from rfl, iv, WithBot.coe_lt_coe]
  exact WithTop.coe_lt_top _

/-! ### Branch-level unfolding lemmas for the node functions -/

theorem minimax_max_node_hit (S : Shared) (b : Board) (c : ℤ) (l : ℕ)
    (g : Cache) (v : V) (hg : g b = some v) :
    minimax_max_node S b c l true g = (none, v, g) := by
  rw [minimax_max_node.eq_def, hg]

theorem minimax_min_node_hit (S : Shared) (b : Board) (c : ℤ) (l : ℕ)
    (g : Cache) (v : V) (hg : g b = some v) :
    minimax_min_node S b c l true g = (none, v, g) := by
  rw [minimax_min_node.eq_def, hg]

theorem minimax_max_node_zero (S : Shared) (b : Board) (c : ℤ) (caching : Bool)
    (g : Cache) (hg : caching = true → g b = none) :
    minimax_max_node S b c 0 caching g =
      (none, iv (compute_utility S b c),
        if caching then g.insert b (iv (compute_utility S b c)) else g) := by
  cases caching
  · rw [minimax_max_node.eq_def]
    all_goals cases hgb : g b <;> rfl
  · rw [minimax_max_node.eq_def, hg rfl]
    all_goals rfl

theorem minimax_min_node_zero (S : Shared) (b : Board) (c : ℤ) (caching : Bool)
    (g : Cache) (hg : caching = true → g b = none) :
    minimax_min_node S b c 0 caching g =
      (none, iv (compute_utility S b c),
        if caching then g.insert b (iv (compute_utility S b c)) else g) := by
  cases caching
  · rw [minimax_min_node.eq_def]
    all_goals cases hgb : g b <;> rfl
  · rw [minimax_min_node.eq_def, hg rfl]
    all_goals rfl

theorem minimax_max_node_nil (S : Shared) (b : Board) (c : ℤ) (l : ℕ)
    (caching : Bool) (g : Cache) (hg : caching = true → g b = none)
    (hm : S.get_possible_moves b c = []) :
    minimax_max_node S b c (l + 1) caching g =
      (none, iv (compute_utility S b c),
        if caching then g.insert b (iv (compute_utility S b c)) else g) := by
  cases caching
  · rw [minimax_max_node.eq_def]
    all_goals cases hgb : g b <;> simp [hm]
  · rw [minimax_max_node.eq_def, hg rfl]
    all_goals simp [hm]

theorem minimax_min_node_nil (S : Shared) (b : Board) (c : ℤ) (l : ℕ)
    (caching : Bool) (g : Cache) (hg : caching = true → g b = none)
    (hm : S.get_possible_moves b (if c = 1 then 2 else 1) = []) :
    minimax_min_node S b c (l + 1) caching g =
      (none, iv (compute_utility S b c),
        if caching then g.insert b (iv (compute_utility S b c)) else g) := by
  cases caching
  · rw [minimax_min_node.eq_def]
    all_goals cases hgb : g b <;> simp [hm]
  · rw [minimax_min_node.eq_def, hg rfl]
    all_goals simp [hm]

theorem minimax_max_node_succ (S : Shared) (b : Board) (c : ℤ) (l : ℕ)
    (caching : Bool) (g : Cache) (hg : caching = true → g b = none)
    (hm : S.get_possible_moves b c ≠ []) :
    minimax_max_node S b c (l + 1) caching g =
      (let r := mmMaxLoop
        (fun m g' =>
          let q := minimax_min_node S (S.play_move b c m.1 m.2) c l caching g'
          (q.2.1, q.2.2))
        (S.get_possible_moves b c) none ⊥ g
       (r.1, r.2.1, if caching then Cache.insert r.2.2 b r.2.1 else r.2.2)) := by
  cases caching
  · rw [minimax_max_node.eq_def]
    all_goals cases hgb : g b <;> simp [hm]
  · rw [minimax_max_node.eq_def, hg rfl]
    all_goals simp [hm]

theorem minimax_min_node_succ (S : Shared) (b : Board) (c : ℤ) (l : ℕ)
    (caching : Bool) (g : Cache) (hg : caching = true → g b = none)
    (hm : S.get_possible_moves b (if c = 1 then 2 else 1) ≠ []) :
    minimax_min_node S b c (l + 1) caching g =
      (let r := mmMinLoop
        (fun m g' =>
          let q := minimax_max_node S
            (S.play_move b (if c = 1 then 2 else 1) m.1 m.2) c l caching g'
          (q.2.1, q.2.2))
        (S.get_possible_moves b (if c = 1 then 2 else 1)) none ⊤ g
       (r.1, r.2.1, if caching then Cache.insert r.2.2 b r.2.1 else r.2.2)) := by
  cases caching
  · rw [minimax_min_node.eq_def]
    all_goals cases hgb : g b <;> simp [hm]
  · rw [minimax_min_node.eq_def, hg rfl]
    all_goals simp [hm]

theorem alphabeta_max_node_hit (S : Shared) (b : Board) (c : ℤ) (alpha beta : V)
    (l : ℕ) (ord : Bool) (g : Cache) (v : V) (hg : g b = some v) :
    alphabeta_max_node S b c alpha beta l true ord g = (none, v, g) := by
  rw [alphabeta_max_node.eq_def, hg]

theorem alphabeta_min_node_hit (S : Shared) (b : Board) (c : ℤ) (alpha beta : V)
    (l : ℕ) (ord : Bool) (g : Cache) (v : V) (hg : g b = some v) :
    alphabeta_min_node S b c alpha beta l true ord g = (none, v, g) := by
  rw [alphabeta_min_node.eq_def, hg]

theorem alphabeta_max_node_zero (S : Shared) (b : Board) (c : ℤ) (alpha beta : V)
    (caching ord : Bool) (g : Cache) (hg : caching = true → g b = none) :
    alphabeta_max_node S b c alpha beta 0 caching ord g =
      (none, iv (compute_utility S b c),
        if caching then g.insert b (iv (compute_utility S b c)) else g) := by
  cases caching
  · rw [alphabeta_max_node.eq_def]
    all_goals cases hgb : g b <;> rfl
  · rw [alphabeta_max_node.eq_def, hg rfl]
    all_goals rfl

theorem alphabeta_min_node_zero (S : Shared) (b : Board) (c : ℤ) (alpha beta : V)
    (caching ord : Bool) (g : Cache) (hg : caching = true → g b = none) :
    alphabeta_min_node S b c alpha beta 0 caching ord g =
      (none, iv (compute_utility S b c),
        if caching then g.insert b (iv (compute_utility S b c)) else g) := by
  cases caching
  · rw [alphabeta_min_node.eq_def]
    all_goals cases hgb : g b <;> rfl
  · rw [alphabeta_min_node.eq_def, hg rfl]
    all_goals rfl

theorem alphabeta_max_node_nil (S : Shared) (b : Board) (c : ℤ) (alpha beta : V)
    (l : ℕ) (caching ord : Bool) (g : Cache) (hg : caching = true → g b = none)
    (hm : S.get_possible_moves b c = []) :
    alphabeta_max_node S b c alpha beta (l + 1) caching ord g =
      (none, iv (compute_utility S b c),
        if caching then g.insert b (iv (compute_utility S b c)) else g) := by
  cases caching
  · rw [alphabeta_max_node.eq_def]
    all_goals cases hgb : g b <;> simp [hm]
  · rw [alphabeta_max_node.eq_def, hg rfl]
    all_goals simp [hm]

theorem alphabeta_min_node_nil (S : Shared) (b : Board) (c : ℤ) (alpha beta : V)
    (l : ℕ) (caching ord : Bool) (g : Cache) (hg : caching = true → g b = none)
    (hm : S.get_possible_moves b (if c = 1 then 2 else 1) = []) :
    alphabeta_min_node S b c alpha beta (l + 1) caching ord g =
      (none, iv (compute_utility S b c),
        if caching then g.insert b (iv (compute_utility S b c)) else g) := by
  cases caching
  · rw [alphabeta_min_node.eq_def]
    all_goals cases hgb : g b <;> simp [hm]
  · rw [alphabeta_min_node.eq_def, hg rfl]
    all_goals simp [hm]

theorem alphabeta_max_node_succ (S : Shared) (b : Board) (c : ℤ) (alpha beta : V)
    (l : ℕ) (caching ord : Bool) (g : Cache) (hg : caching = true → g b = none)
    (hm : S.get_possible_moves b c ≠ []) :
    alphabeta_max_node S b c alpha beta (l + 1) caching ord g =
      (let successors := (S.get_possible_moves b c).map fun m =>
          (S.play_move b c m.1 m.2, m)
       let successors :=
         if ord then
           successors.insertionSort fun s t =>
             compute_utility S t.1 c ≤ compute_utility S s.1 c
         else successors
       let r := abMaxLoop
         (fun b' a bb g' =>
           let q := alphabeta_min_node S b' c a bb l caching ord g'
           (q.2.1, q.2.2))
         successors alpha beta none ⊥ g
       (r.1, r.2.1, if caching then Cache.insert r.2.2 b r.2.1 else r.2.2)) := by
  cases caching
  · rw [alphabeta_max_node.eq_def]
    all_goals cases hgb : g b <;> simp [hm]
  · rw [alphabeta_max_node.eq_def, hg rfl]
    all_goals simp [hm]

theorem alphabeta_min_node_succ (S : Shared) (b : Board) (c : ℤ) (alpha beta : V)
    (l : ℕ) (caching ord : Bool) (g : Cache) (hg : caching = true → g b = none)
    (hm : S.get_possible_moves b (if c = 1 then 2 else 1) ≠ []) :
    alphabeta_min_node S b c alpha beta (l + 1) caching ord g =
      (let successors := (S.get_possible_moves b (if c = 1 then 2 else 1)).map fun m =>
          (S.play_move b (if c = 1 then 2 else 1) m.1 m.2, m)
       let successors :=
         if ord then
           successors.insertionSort fun s t =>
             compute_utility S s.1 c ≤ compute_utility S t.1 c
         else successors
       let r := abMinLoop
         (fun b' a bb g' =>
           let q := alphabeta_max_node S b' c a bb l caching ord g'
           (q.2.1, q.2.2))
         successors alpha beta none ⊤ g
       (r.1, r.2.1, if caching then Cache.insert r.2.2 b r.2.1 else r.2.2)) := by
  cases caching
  · rw [alphabeta_min_node.eq_def]
    all_goals cases hgb : g b <;> simp [hm]
  · rw [alphabeta_min_node.eq_def, hg rfl]
    all_goals simp [hm]

/-- Once the minimax max loop holds a move, it keeps holding one. -/
theorem mmMaxLoop_some (f : Move → Cache → V × Cache) (ms : List Move) :
    ∀ m₀ maxu g, (mmMaxLoop f ms (some m₀) maxu g).1 ≠ none := by
  induction ms with
  | nil => intro m₀ maxu g h; simp [mmMaxLoop] at h
  | cons m rest ih =>
    intro m₀ maxu g
    rw [mmMaxLoop]
    by_cases h : maxu < (f m g).1
    · simp only [if_pos h]; exact ih _ _ _
    · simp only [if_neg h]; exact ih _ _ _

/-! ### Branch-level unfolding lemmas for the evaluator-generic node functions -/

theorem minimax_max_node_ev_hit (S : Shared) (ev : Board → ℤ → ℤ) (b : Board) (c : ℤ) (l : ℕ)
    (g : Cache) (v : V) (hg : g b = some v) :
    minimax_max_node_ev S ev b c l true g = (none, v, g) := by
  rw [minimax_max_node_ev.eq_def, hg]

theorem minimax_min_node_ev_hit (S : Shared) (ev : Board → ℤ → ℤ) (b : Board) (c : ℤ) (l : ℕ)
    (g : Cache) (v : V) (hg : g b = some v) :
    minimax_min_node_ev S ev b c l true g = (none, v, g) := by
  rw [minimax_min_node_ev.eq_def, hg]

theorem minimax_max_node_ev_zero (S : Shared) (ev : Board → ℤ → ℤ) (b : Board) (c : ℤ) (caching : Bool)
    (g : Cache) (hg : caching = true → g b = none) :
    minimax_max_node_ev S ev b c 0 caching g =
      (none, iv (ev b c),
        if caching then g.insert b (iv (ev b c)) else g) := by
  cases caching
  · rw [minimax_max_node_ev.eq_def]
    all_goals cases hgb : g b <;> rfl
  · rw [minimax_max_node_ev.eq_def, hg rfl]
    all_goals rfl

theorem minimax_min_node_ev_zero (S : Shared) (ev : Board → ℤ → ℤ) (b : Board) (c : ℤ) (caching : Bool)
    (g : Cache) (hg : caching = true → g b = none) :
    minimax_min_node_ev S ev b c 0 caching g =
      (none, iv (ev b c),
        if caching then g.insert b (iv (ev b c)) else g) := by
  cases caching
  · rw [minimax_min_node_ev.eq_def]
    all_goals cases hgb : g b <;> rfl
  · rw [minimax_min_node_ev.eq_def, hg rfl]
    all_goals rfl

theorem minimax_max_node_ev_nil (S : Shared) (ev : Board → ℤ → ℤ) (b : Board) (c : ℤ) (l : ℕ)
    (caching : Bool) (g : Cache) (hg : caching = true → g b = none)
    (hm : S.get_possible_moves b c = []) :
    minimax_max_node_ev S ev b c (l + 1) caching g =
      (none, iv (ev b c),
        if caching then g.insert b (iv (ev b c)) else g) := by
  cases caching
  · rw [minimax_max_node_ev.eq_def]
    all_goals cases hgb : g b <;> simp [hm]
  · rw [minimax_max_node_ev.eq_def, hg rfl]
    all_goals simp [hm]

theorem minimax_min_node_ev_nil (S : Shared) (ev : Board → ℤ → ℤ) (b : Board) (c : ℤ) (l : ℕ)
    (caching : Bool) (g : Cache) (hg : caching = true → g b = none)
    (hm : S.get_possible_moves b (if c = 1 then 2 else 1) = []) :
    minimax_min_node_ev S ev b c (l + 1) caching g =
      (none, iv (ev b c),
        if caching then g.insert b (iv (ev b c)) else g) := by
  cases caching
  · rw [minimax_min_node_ev.eq_def]
    all_goals cases hgb : g b <;> simp [hm]
  · rw [minimax_min_node_ev.eq_def, hg rfl]
    all_goals simp [hm]

theorem minimax_max_node_ev_succ (S : Shared) (ev : Board → ℤ → ℤ) (b : Board) (c : ℤ) (l : ℕ)
    (caching : Bool) (g : Cache) (hg : caching = true → g b = none)
    (hm : S.get_possible_moves b c ≠ []) :
    minimax_max_node_ev S ev b c (l + 1) caching g =
      (let r := mmMaxLoop
        (fun m g' =>
          let q := minimax_min_node_ev S ev (S.play_move b c m.1 m.2) c l caching g'
          (q.2.1, q.2.2))
        (S.get_possible_moves b c) none ⊥ g
       (r.1, r.2.1, if caching then Cache.insert r.2.2 b r.2.1 else r.2.2)) := by
  cases caching
  · rw [minimax_max_node_ev.eq_def]
    all_goals cases hgb : g b <;> simp [hm]
  · rw [minimax_max_node_ev.eq_def, hg rfl]
    all_goals simp [hm]

theorem minimax_min_node_ev_succ (S : Shared) (ev : Board → ℤ → ℤ) (b : Board) (c : ℤ) (l : ℕ)
    (caching : Bool) (g : Cache) (hg : caching = true → g b = none)
    (hm : S.get_possible_moves b (if c = 1 then 2 else 1) ≠ []) :
    minimax_min_node_ev S ev b c (l + 1) caching g =
      (let r := mmMinLoop
        (fun m g' =>
          let q := minimax_max_node_ev S ev
            (S.play_move b (if c = 1 then 2 else 1) m.1 m.2) c l caching g'
          (q.2.1, q.2.2))
        (S.get_possible_moves b (if c = 1 then 2 else 1)) none ⊤ g
       (r.1, r.2.1, if caching then Cache.insert r.2.2 b r.2.1 else r.2.2)) := by
  cases caching
  · rw [minimax_min_node_ev.eq_def]
    all_goals cases hgb : g b <;> simp [hm]
  · rw [minimax_min_node_ev.eq_def, hg rfl]
    all_goals simp [hm]

theorem alphabeta_max_node_ev_hit (S : Shared) (ev : Board → ℤ → ℤ) (b : Board) (c : ℤ) (alpha beta : V)
    (l : ℕ) (ord : Bool) (g : Cache) (v : V) (hg : g b = some v) :
    alphabeta_max_node_ev S ev b c alpha beta l true ord g = (none, v, g) := by
  rw [alphabeta_max_node_ev.eq_def, hg]

theorem alphabeta_min_node_ev_hit (S : Shared) (ev : Board → ℤ → ℤ) (b : Board) (c : ℤ) (alpha beta : V)
    (l : ℕ) (ord : Bool) (g : Cache) (v : V) (hg : g b = some v) :
    alphabeta_min_node_ev S ev b c alpha beta l true ord g = (none, v, g) := by
  rw [alphabeta_min_node_ev.eq_def, hg]

theorem alphabeta_max_node_ev_zero (S : Shared) (ev : Board → ℤ → ℤ) (b : Board) (c : ℤ) (alpha beta : V)
    (caching ord : Bool) (g : Cache) (hg : caching = true → g b = none) :
    alphabeta_max_node_ev S ev b c alpha beta 0 caching ord g =
      (none, iv (ev b c),
        if caching then g.insert b (iv (ev b c)) else g) := by
  cases caching
  · rw [alphabeta_max_node_ev.eq_def]
    all_goals cases hgb : g b <;> rfl
  · rw [alphabeta_max_node_ev.eq_def, hg rfl]
    all_goals rfl

theorem alphabeta_min_node_ev_zero (S : Shared) (ev : Board → ℤ → ℤ) (b : Board) (c : ℤ) (alpha beta : V)
    (caching ord : Bool) (g : Cache) (hg : caching = true → g b = none) :
    alphabeta_min_node_ev S ev b c alpha beta 0 caching ord g =
      (none, iv (ev b c),
        if caching then g.insert b (iv (ev b c)) else g) := by
  cases caching
  · rw [alphabeta_min_node_ev.eq_def]
    all_goals cases hgb : g b <;> rfl
  · rw [alphabeta_min_node_ev.eq_def, hg rfl]
    all_goals rfl

theorem alphabeta_max_node_ev_nil (S : Shared) (ev : Board → ℤ → ℤ) (b : Board) (c : ℤ) (alpha beta : V)
    (l : ℕ) (caching ord : Bool) (g : Cache) (hg : caching = true → g b = none)
    (hm : S.get_possible_moves b c = []) :
    alphabeta_max_node_ev S ev b c alpha beta (l + 1) caching ord g =
      (none, iv (ev b c),
        if caching then g.insert b (iv (ev b c)) else g) := by
  cases caching
  · rw [alphabeta_max_node_ev.eq_def]
    all_goals cases hgb : g b <;> simp [hm]
  · rw [alphabeta_max_node_ev.eq_def, hg rfl]
    all_goals simp [hm]

theorem alphabeta_min_node_ev_nil (S : Shared) (ev : Board → ℤ → ℤ) (b : Board) (c : ℤ) (alpha beta : V)
    (l : ℕ) (caching ord : Bool) (g : Cache) (hg : caching = true → g b = none)
    (hm : S.get_possible_moves b (if c = 1 then 2 else 1) = []) :
    alphabeta_min_node_ev S ev b c alpha beta (l + 1) caching ord g =
      (none, iv (ev b c),
        if caching then g.insert b (iv (ev b c)) else g) := by
  cases caching
  · rw [alphabeta_min_node_ev.eq_def]
    all_goals cases hgb : g b <;> simp [hm]
  · rw [alphabeta_min_node_ev.eq_def, hg rfl]
    all_goals simp [hm]

theorem alphabeta_max_node_ev_succ (S : Shared) (ev : Board → ℤ → ℤ) (b : Board) (c : ℤ) (alpha beta : V)
    (l : ℕ) (caching ord : Bool) (g : Cache) (hg : caching = true → g b = none)
    (hm : S.get_possible_moves b c ≠ []) :
    alphabeta_max_node_ev S ev b c alpha beta (l + 1) caching ord g =
      (let successors := (S.get_possible_moves b c).map fun m =>
          (S.play_move b c m.1 m.2, m)
       let successors :=
         if ord then
           successors.insertionSort fun s t =>
             ev t.1 c ≤ ev s.1 c
         else successors
       let r := abMaxLoop
         (fun b' a bb g' =>
           let q := alphabeta_min_node_ev S ev b' c a bb l caching ord g'
           (q.2.1, q.2.2))
         successors alpha beta none ⊥ g
       (r.1, r.2.1, if caching then Cache.insert r.2.2 b r.2.1 else r.2.2)) := by
  cases caching
  · rw [alphabeta_max_node_ev.eq_def]
    all_goals cases hgb : g b <;> simp [hm]
  · rw [alphabeta_max_node_ev.eq_def, hg rfl]
    all_goals simp [hm]

theorem alphabeta_min_node_ev_succ (S : Shared) (ev : Board → ℤ → ℤ) (b : Board) (c : ℤ) (alpha beta : V)
    (l : ℕ) (caching ord : Bool) (g : Cache) (hg : caching = true → g b = none)
    (hm : S.get_possible_moves b (if c = 1 then 2 else 1) ≠ []) :
    alphabeta_min_node_ev S ev b c alpha beta (l + 1) caching ord g =
      (let successors := (S.get_possible_moves b (if c = 1 then 2 else 1)).map fun m =>
          (S.play_move b (if c = 1 then 2 else 1) m.1 m.2, m)
       let successors :=
         if ord then
           successors.insertionSort fun s t =>
             ev s.1 c ≤ ev t.1 c
         else successors
       let r := abMinLoop
         (fun b' a bb g' =>
           let q := alphabeta_max_node_ev S ev b' c a bb l caching ord g'
           (q.2.1, q.2.2))
         successors alpha beta none ⊤ g
       (r.1, r.2.1, if caching then Cache.insert r.2.2 b r.2.1 else r.2.2)) := by
  cases caching
  · rw [alphabeta_min_node_ev.eq_def]
    all_goals cases hgb : g b <;> simp [hm]
  · rw [alphabeta_min_node_ev.eq_def, hg rfl]
    all_goals simp [hm]

/-! ### Purification: with caching off, the loops never touch the cache -/

theorem mmMaxLoop_pure (f : Move → Cache → V × Cache) (fv : Move → V)
    (hf : ∀ m g, f m g = (fv m, g)) :
    ∀ ms best maxu g, mmMaxLoop f ms best maxu g =
      ((pureMaxLoop fv ms best maxu).1, (pureMaxLoop fv ms best maxu).2, g) := by
  intro ms
  induction ms with
  | nil => intro best maxu g; rfl
  | cons m rest ih =>
    intro best maxu g
    simp only [mmMaxLoop, pureMaxLoop, hf]
    by_cases h : maxu < fv m
    · simp only [if_pos h]; exact ih _ _ _
    · simp only [if_neg h]; exact ih _ _ _

theorem mmMinLoop_pure (f : Move → Cache → V × Cache) (fv : Move → V)
    (hf : ∀ m g, f m g = (fv m, g)) :
    ∀ ms best minu g, mmMinLoop f ms best minu g =
      ((pureMinLoop fv ms best minu).1, (pureMinLoop fv ms best minu).2, g) := by
  intro ms
  induction ms with
  | nil => intro best minu g; rfl
  | cons m rest ih =>
    intro best minu g
    simp only [mmMinLoop, pureMinLoop, hf]
    by_cases h : fv m < minu
    · simp only [if_pos h]; exact ih _ _ _
    · simp only [if_neg h]; exact ih _ _ _

theorem abMaxLoop_pure (f : Board → V → V → Cache → V × Cache)
    (fv : Board → V → V → V) (hf : ∀ b' a bb g, f b' a bb g = (fv b' a bb, g)) :
    ∀ ss alpha beta best maxu g, abMaxLoop f ss alpha beta best maxu g =
      ((pureAbMaxLoop fv ss alpha beta best maxu).1,
        (pureAbMaxLoop fv ss alpha beta best maxu).2, g) := by
  intro ss
  induction ss with
  | nil => intro alpha beta best maxu g; rfl
  | cons s rest ih =>
    intro alpha beta best maxu g
    simp only [abMaxLoop, pureAbMaxLoop, hf]
    by_cases h : beta ≤ (if maxu < fv s.1 alpha beta then fv s.1 alpha beta else maxu)
    · simp only [if_pos h]
    · simp only [if_neg h]; exact ih _ _ _ _ _

theorem abMinLoop_pure (f : Board → V → V → Cache → V × Cache)
    (fv : Board → V → V → V) (hf : ∀ b' a bb g, f b' a bb g = (fv b' a bb, g)) :
    ∀ ss alpha beta best minu g, abMinLoop f ss alpha beta best minu g =
      ((pureAbMinLoop fv ss alpha beta best minu).1,
        (pureAbMinLoop fv ss alpha beta best minu).2, g) := by
  intro ss
  induction ss with
  | nil => intro alpha beta best minu g; rfl
  | cons s rest ih =>
    intro alpha beta best minu g
    simp only [abMinLoop, pureAbMinLoop, hf]
    by_cases h : (if fv s.1 alpha beta < minu then fv s.1 alpha beta else minu) ≤ alpha
    · simp only [if_pos h]
    · simp only [if_neg h]; exact ih _ _ _ _ _

/-! ### Cache transparency of the node functions with caching off -/

theorem minimax_nocache (S : Shared) (c : ℤ) :
    ∀ l (b : Board) (g : Cache),
      minimax_min_node S b c l false g =
        ((minimax_min_node S b c l false Cache.empty).1, mmMinVal S b c l, g) ∧
      minimax_max_node S b c l false g =
        ((minimax_max_node S b c l false Cache.empty).1, mmMaxVal S b c l, g) := by
  intro l
  induction l with
  | zero =>
    intro b g
    constructor
    · rw [minimax_min_node_zero S b c false g (fun h => nomatch h), mmMinVal,
        minimax_min_node_zero S b c false Cache.empty (fun h => nomatch h)]
      rfl
    · rw [minimax_max_node_zero S b c false g (fun h => nomatch h), mmMaxVal,
        minimax_max_node_zero S b c false Cache.empty (fun h => nomatch h)]
      rfl
  | succ l ih =>
    intro b g
    constructor
    · by_cases hmv : S.get_possible_moves b (if c = 1 then 2 else 1) = []
      · rw [minimax_min_node_nil S b c l false g (fun h => nomatch h) hmv, mmMinVal,
          minimax_min_node_nil S b c l false Cache.empty (fun h => nomatch h) hmv]
        rfl
      · rw [minimax_min_node_succ S b c l false g (fun h => nomatch h) hmv, mmMinVal,
          minimax_min_node_succ S b c l false Cache.empty (fun h => nomatch h) hmv]
        have hpure := mmMinLoop_pure
          (fun m g' =>
            let q := minimax_max_node S
              (S.play_move b (if c = 1 then 2 else 1) m.1 m.2) c l false g'
            (q.2.1, q.2.2))
          (fun m => mmMaxVal S (S.play_move b (if c = 1 then 2 else 1) m.1 m.2) c l)
          (fun m g' => by
            show ((minimax_max_node S _ c l false g').2.1,
              (minimax_max_node S _ c l false g').2.2) = _
            rw [(ih _ g').2])
        rw [hpure, hpure]
        rfl
    · by_cases hmv : S.get_possible_moves b c = []
      · rw [minimax_max_node_nil S b c l false g (fun h => nomatch h) hmv, mmMaxVal,
          minimax_max_node_nil S b c l false Cache.empty (fun h => nomatch h) hmv]
        rfl
      · rw [minimax_max_node_succ S b c l false g (fun h => nomatch h) hmv, mmMaxVal,
          minimax_max_node_succ S b c l false Cache.empty (fun h => nomatch h) hmv]
        have hpure := mmMaxLoop_pure
          (fun m g' =>
            let q := minimax_min_node S (S.play_move b c m.1 m.2) c l false g'
            (q.2.1, q.2.2))
          (fun m => mmMinVal S (S.play_move b c m.1 m.2) c l)
          (fun m g' => by
            show ((minimax_min_node S _ c l false g').2.1,
              (minimax_min_node S _ c l false g').2.2) = _
            rw [(ih _ g').1])
        rw [hpure, hpure]
        rfl

theorem alphabeta_nocache (S : Shared) (c : ℤ) (ord : Bool) :
    ∀ l (b : Board) (alpha beta : V) (g : Cache),
      alphabeta_min_node S b c alpha beta l false ord g =
        ((alphabeta_min_node S b c alpha beta l false ord Cache.empty).1,
          abMinVal S b c alpha beta l ord, g) ∧
      alphabeta_max_node S b c alpha beta l false ord g =
        ((alphabeta_max_node S b c alpha beta l false ord Cache.empty).1,
          abMaxVal S b c alpha beta l ord, g) := by
  intro l
  induction l with
  | zero =>
    intro b alpha beta g
    constructor
    · rw [alphabeta_min_node_zero S b c alpha beta false ord g (fun h => nomatch h),
        abMinVal,
        alphabeta_min_node_zero S b c alpha beta false ord Cache.empty (fun h => nomatch h)]
      rfl
    · rw [alphabeta_max_node_zero S b c alpha beta false ord g (fun h => nomatch h),
        abMaxVal,
        alphabeta_max_node_zero S b c alpha beta false ord Cache.empty (fun h => nomatch h)]
      rfl
  | succ l ih =>
    intro b alpha beta g
    constructor
    · by_cases hmv : S.get_possible_moves b (if c = 1 then 2 else 1) = []
      · rw [alphabeta_min_node_nil S b c alpha beta l false ord g (fun h => nomatch h) hmv,
          abMinVal,
          alphabeta_min_node_nil S b c alpha beta l false ord Cache.empty
            (fun h => nomatch h) hmv]
        rfl
      · rw [alphabeta_min_node_succ S b c alpha beta l false ord g (fun h => nomatch h) hmv,
          abMinVal,
          alphabeta_min_node_succ S b c alpha beta l false ord Cache.empty
            (fun h => nomatch h) hmv]
        have hpure := abMinLoop_pure
          (fun b' a bb g' =>
            let q := alphabeta_max_node S b' c a bb l false ord g'
            (q.2.1, q.2.2))
          (fun b' a bb => abMaxVal S b' c a bb l ord)
          (fun b' a bb g' => by
            show ((alphabeta_max_node S b' c a bb l false ord g').2.1,
              (alphabeta_max_node S b' c a bb l false ord g').2.2) = _
            rw [(ih b' a bb g').2])
        simp only [hpure]
        rfl
    · by_cases hmv : S.get_possible_moves b c = []
      · rw [alphabeta_max_node_nil S b c alpha beta l false ord g (fun h => nomatch h) hmv,
          abMaxVal,
          alphabeta_max_node_nil S b c alpha beta l false ord Cache.empty
            (fun h => nomatch h) hmv]
        rfl
      · rw [alphabeta_max_node_succ S b c alpha beta l false ord g (fun h => nomatch h) hmv,
          abMaxVal,
          alphabeta_max_node_succ S b c alpha beta l false ord Cache.empty
            (fun h => nomatch h) hmv]
        have hpure := abMaxLoop_pure
          (fun b' a bb g' =>
            let q := alphabeta_min_node S b' c a bb l false ord g'
            (q.2.1, q.2.2))
          (fun b' a bb => abMinVal S b' c a bb l ord)
          (fun b' a bb g' => by
            show ((alphabeta_min_node S b' c a bb l false ord g').2.1,
              (alphabeta_min_node S b' c a bb l false ord g').2.2) = _
            rw [(ih b' a bb g').1])
        simp only [hpure]
        rfl

/-! ### Value-level unfolding of the cache-free searches -/

theorem mmMaxVal_zero (S : Shared) (b : Board) (c : ℤ) :
    mmMaxVal S b c 0 = iv (compute_utility S b c) := by
  rw [mmMaxVal, minimax_max_node_zero S b c false Cache.empty (fun h => nomatch h)]

theorem mmMinVal_zero (S : Shared) (b : Board) (c : ℤ) :
    mmMinVal S b c 0 = iv (compute_utility S b c) := by
  rw [mmMinVal, minimax_min_node_zero S b c false Cache.empty (fun h => nomatch h)]

theorem mmMaxVal_nil (S : Shared) (b : Board) (c : ℤ) (l : ℕ)
    (hm : S.get_possible_moves b c = []) :
    mmMaxVal S b c (l + 1) = iv (compute_utility S b c) := by
  rw [mmMaxVal, minimax_max_node_nil S b c l false Cache.empty (fun h => nomatch h) hm]

theorem mmMinVal_nil (S : Shared) (b : Board) (c : ℤ) (l : ℕ)
    (hm : S.get_possible_moves b (if c = 1 then 2 else 1) = []) :
    mmMinVal S b c (l + 1) = iv (compute_utility S b c) := by
  rw [mmMinVal, minimax_min_node_nil S b c l false Cache.empty (fun h => nomatch h) hm]

theorem mmMaxVal_succ (S : Shared) (b : Board) (c : ℤ) (l : ℕ)
    (hm : S.get_possible_moves b c ≠ []) :
    mmMaxVal S b c (l + 1) =
      (pureMaxLoop (fun m => mmMinVal S (S.play_move b c m.1 m.2) c l)
        (S.get_possible_moves b c) none ⊥).2 := by
  rw [mmMaxVal, minimax_max_node_succ S b c l false Cache.empty (fun h => nomatch h) hm]
  rw [mmMaxLoop_pure
    (fun m g' =>
      let q := minimax_min_node S (S.play_move b c m.1 m.2) c l false g'
      (q.2.1, q.2.2))
    (fun m => mmMinVal S (S.play_move b c m.1 m.2) c l)
    (fun m g' => by
      show ((minimax_min_node S _ c l false g').2.1,
        (minimax_min_node S _ c l false g').2.2) = _
      rw [(minimax_nocache S c l _ g').1])]

theorem mmMinVal_succ (S : Shared) (b : Board) (c : ℤ) (l : ℕ)
    (hm : S.get_possible_moves b (if c = 1 then 2 else 1) ≠ []) :
    mmMinVal S b c (l + 1) =
      (pureMinLoop
        (fun m => mmMaxVal S (S.play_move b (if c = 1 then 2 else 1) m.1 m.2) c l)
        (S.get_possible_moves b (if c = 1 then 2 else 1)) none ⊤).2 := by
  rw [mmMinVal, minimax_min_node_succ S b c l false Cache.empty (fun h => nomatch h) hm]
  rw [mmMinLoop_pure
    (fun m g' =>
      let q := minimax_max_node S
        (S.play_move b (if c = 1 then 2 else 1) m.1 m.2) c l false g'
      (q.2.1, q.2.2))
    (fun m => mmMaxVal S (S.play_move b (if c = 1 then 2 else 1) m.1 m.2) c l)
    (fun m g' => by
      show ((minimax_max_node S _ c l false g').2.1,
        (minimax_max_node S _ c l false g').2.2) = _
      rw [(minimax_nocache S c l _ g').2])]

theorem abMaxVal_zero (S : Shared) (b : Board) (c : ℤ) (alpha beta : V) (ord : Bool) :
    abMaxVal S b c alpha beta 0 ord = iv (compute_utility S b c) := by
  rw [abMaxVal,
    alphabeta_max_node_zero S b c alpha beta false ord Cache.empty (fun h => nomatch h)]

theorem abMinVal_zero (S : Shared) (b : Board) (c : ℤ) (alpha beta : V) (ord : Bool) :
    abMinVal S b c alpha beta 0 ord = iv (compute_utility S b c) := by
  rw [abMinVal,
    alphabeta_min_node_zero S b c alpha beta false ord Cache.empty (fun h => nomatch h)]

theorem abMaxVal_nil (S : Shared) (b : Board) (c : ℤ) (alpha beta : V) (l : ℕ)
    (ord : Bool) (hm : S.get_possible_moves b c = []) :
    abMaxVal S b c alpha beta (l + 1) ord = iv (compute_utility S b c) := by
  rw [abMaxVal,
    alphabeta_max_node_nil S b c alpha beta l false ord Cache.empty (fun h => nomatch h) hm]

theorem abMinVal_nil (S : Shared) (b : Board) (c : ℤ) (alpha beta : V) (l : ℕ)
    (ord : Bool) (hm : S.get_possible_moves b (if c = 1 then 2 else 1) = []) :
    abMinVal S b c alpha beta (l + 1) ord = iv (compute_utility S b c) := by
  rw [abMinVal,
    alphabeta_min_node_nil S b c alpha beta l false ord Cache.empty (fun h => nomatch h) hm]

theorem abMaxVal_succ (S : Shared) (b : Board) (c : ℤ) (alpha beta : V) (l : ℕ)
    (ord : Bool) (hm : S.get_possible_moves b c ≠ []) :
    abMaxVal S b c alpha beta (l + 1) ord =
      (pureAbMaxLoop (fun b' a bb => abMinVal S b' c a bb l ord)
        (abMaxSuccs S b c ord) alpha beta none ⊥).2 := by
  rw [abMaxVal,
    alphabeta_max_node_succ S b c alpha beta l false ord Cache.empty (fun h => nomatch h) hm]
  rw [show (let successors := (S.get_possible_moves b c).map fun m =>
        (S.play_move b c m.1 m.2, m)
      let successors :=
        if ord then
          successors.insertionSort fun s t =>
            compute_utility S t.1 c ≤ compute_utility S s.1 c
        else successors
      let r := abMaxLoop
        (fun b' a bb g' =>
          let q := alphabeta_min_node S b' c a bb l false ord g'
          (q.2.1, q.2.2))
        successors alpha beta none ⊥ Cache.empty
      (r.1, r.2.1, if false then Cache.insert r.2.2 b r.2.1 else r.2.2)) =
      (let r := abMaxLoop
        (fun b' a bb g' =>
          let q := alphabeta_min_node S b' c a bb l false ord g'
          (q.2.1, q.2.2))
        (abMaxSuccs S b c ord) alpha beta none ⊥ Cache.empty
      (r.1, r.2.1, r.2.2)) from rfl]
  rw [abMaxLoop_pure
    (fun b' a bb g' =>
      let q := alphabeta_min_node S b' c a bb l false ord g'
      (q.2.1, q.2.2))
    (fun b' a bb => abMinVal S b' c a bb l ord)
    (fun b' a bb g' => by
      show ((alphabeta_min_node S b' c a bb l false ord g').2.1,
        (alphabeta_min_node S b' c a bb l false ord g').2.2) = _
      rw [(alphabeta_nocache S c ord l b' a bb g').1])]

theorem abMinVal_succ (S : Shared) (b : Board) (c : ℤ) (alpha beta : V) (l : ℕ)
    (ord : Bool) (hm : S.get_possible_moves b (if c = 1 then 2 else 1) ≠ []) :
    abMinVal S b c alpha beta (l + 1) ord =
      (pureAbMinLoop (fun b' a bb => abMaxVal S b' c a bb l ord)
        (abMinSuccs S b c ord) alpha beta none ⊤).2 := by
  rw [abMinVal,
    alphabeta_min_node_succ S b c alpha beta l false ord Cache.empty (fun h => nomatch h) hm]
  rw [show (let successors := (S.get_possible_moves b (if c = 1 then 2 else 1)).map fun m =>
        (S.play_move b (if c = 1 then 2 else 1) m.1 m.2, m)
      let successors :=
        if ord then
          successors.insertionSort fun s t =>
            compute_utility S s.1 c ≤ compute_utility S t.1 c
        else successors
      let r := abMinLoop
        (fun b' a bb g' =>
          let q := alphabeta_max_node S b' c a bb l false ord g'
          (q.2.1, q.2.2))
        successors alpha beta none ⊤ Cache.empty
      (r.1, r.2.1, if false then Cache.insert r.2.2 b r.2.1 else r.2.2)) =
      (let r := abMinLoop
        (fun b' a bb g' =>
          let q := alphabeta_max_node S b' c a bb l false ord g'
          (q.2.1, q.2.2))
        (abMinSuccs S b c ord) alpha beta none ⊤ Cache.empty
      (r.1, r.2.1, r.2.2)) from rfl]
  rw [abMinLoop_pure
    (fun b' a bb g' =>
      let q := alphabeta_max_node S b' c a bb l false ord g'
      (q.2.1, q.2.2))
    (fun b' a bb => abMaxVal S b' c a bb l ord)
    (fun b' a bb g' => by
      show ((alphabeta_max_node S b' c a bb l false ord g').2.1,
        (alphabeta_max_node S b' c a bb l false ord g').2.2) = _
      rw [(alphabeta_nocache S c ord l b' a bb g').2])]

/-! ### Characterisation of the pure loops -/

theorem ifMaxEq (a b : V) : (if a < b then b else a) = max a b := by
  rcases le_or_lt b a with h | h
  · rw [if_neg (not_lt.mpr h), max_eq_left h]
  · rw [if_pos h, max_eq_right h.le]

theorem ifMinEq (a b : V) : (if b < a then b else a) = min a b := by
  rcases le_or_lt a b with h | h
  · rw [if_neg (not_lt.mpr h), min_eq_left h]
  · rw [if_pos h, min_eq_right h.le]

theorem le_foldl_max {α : Type} (k : α → V) (l : List α) :
    ∀ a, a ≤ l.foldl (fun x y => max x (k y)) a := by
  induction l with
  | nil => intro a; exact le_refl a
  | cons y tl ih => intro a; exact le_trans (le_max_left a (k y)) (ih _)

theorem foldl_min_le {α : Type} (k : α → V) (l : List α) :
    ∀ a, l.foldl (fun x y => min x (k y)) a ≤ a := by
  induction l with
  | nil => intro a; exact le_refl a
  | cons y tl ih => intro a; exact le_trans (ih _) (min_le_left a (k y))

theorem foldl_max_eq_init_or {α : Type} (k : α → V) (l : List α) :
    ∀ a, l.foldl (fun x y => max x (k y)) a = a ∨
      ∃ y ∈ l, l.foldl (fun x y => max x (k y)) a = k y := by
  induction l with
  | nil => intro a; exact Or.inl rfl
  | cons z tl ih =>
    intro a
    rcases ih (max a (k z)) with h | ⟨y, hy, h⟩
    · rcases max_choice a (k z) with hc | hc
      · exact Or.inl (by rw [List.foldl_cons, h, hc])
      · exact Or.inr ⟨z, List.mem_cons_self z tl, by rw [List.foldl_cons, h, hc]⟩
    · exact Or.inr ⟨y, List.mem_cons_of_mem z hy, by rw [List.foldl_cons, h]⟩

theorem foldl_min_eq_init_or {α : Type} (k : α → V) (l : List α) :
    ∀ a, l.foldl (fun x y => min x (k y)) a = a ∨
      ∃ y ∈ l, l.foldl (fun x y => min x (k y)) a = k y := by
  induction l with
  | nil => intro a; exact Or.inl rfl
  | cons z tl ih =>
    intro a
    rcases ih (min a (k z)) with h | ⟨y, hy, h⟩
    · rcases min_choice a (k z) with hc | hc
      · exact Or.inl (by rw [List.foldl_cons, h, hc])
      · exact Or.inr ⟨z, List.mem_cons_self z tl, by rw [List.foldl_cons, h, hc]⟩
    · exact Or.inr ⟨y, List.mem_cons_of_mem z hy, by rw [List.foldl_cons, h]⟩

theorem foldl_max_ne {α : Type} (k : α → V) (l : List α) (hl : l ≠ [])
    (hk : ∀ y ∈ l, k y ≠ ⊥ ∧ k y ≠ ⊤) :
    l.foldl (fun x y => max x (k y)) ⊥ ≠ ⊥ ∧
      l.foldl (fun x y => max x (k y)) ⊥ ≠ ⊤ := by
  cases l with
  | nil => exact absurd rfl hl
  | cons z tl =>
    rw [List.foldl_cons, max_eq_right bot_le]
    constructor
    · have h1 : k z ≤ tl.foldl (fun x y => max x (k y)) (k z) := le_foldl_max k tl _
      have h2 : (⊥ : V) < k z :=
        bot_lt_iff_ne_bot.mpr (hk z (List.mem_cons_self z tl)).1
      exact ne_bot_of_gt (lt_of_lt_of_le h2 h1)
    · rcases foldl_max_eq_init_or k tl (k z) with h | ⟨y, hy, h⟩
      · rw [h]; exact (hk z (List.mem_cons_self z tl)).2
      · rw [h]; exact (hk y (List.mem_cons_of_mem z hy)).2

theorem foldl_min_ne {α : Type} (k : α → V) (l : List α) (hl : l ≠ [])
    (hk : ∀ y ∈ l, k y ≠ ⊥ ∧ k y ≠ ⊤) :
    l.foldl (fun x y => min x (k y)) ⊤ ≠ ⊥ ∧
      l.foldl (fun x y => min x (k y)) ⊤ ≠ ⊤ := by
  cases l with
  | nil => exact absurd rfl hl
  | cons z tl =>
    rw [List.foldl_cons, min_eq_right le_top]
    constructor
    · rcases foldl_min_eq_init_or k tl (k z) with h | ⟨y, hy, h⟩
      · rw [h]; exact (hk z (List.mem_cons_self z tl)).1
      · rw [h]; exact (hk y (List.mem_cons_of_mem z hy)).1
    · have h1 : tl.foldl (fun x y => min x (k y)) (k z) ≤ k z := foldl_min_le k tl _
      have h2 : k z < (⊤ : V) :=
        lt_top_iff_ne_top.mpr (hk z (List.mem_cons_self z tl)).2
      exact ne_top_of_lt (lt_of_le_of_lt h1 h2)

theorem pureMaxLoop_snd (fv : Move → V) :
    ∀ ms best maxu, (pureMaxLoop fv ms best maxu).2 =
      ms.foldl (fun a m => max a (fv m)) maxu := by
  intro ms
  induction ms with
  | nil => intro best maxu; rfl
  | cons m rest ih =>
    intro best maxu
    rw [pureMaxLoop, List.foldl_cons]
    by_cases h : maxu < fv m
    · rw [if_pos h, ih, max_eq_right h.le]
    · rw [if_neg h, ih, max_eq_left (not_lt.mp h)]

theorem pureMinLoop_snd (fv : Move → V) :
    ∀ ms best minu, (pureMinLoop fv ms best minu).2 =
      ms.foldl (fun a m => min a (fv m)) minu := by
  intro ms
  induction ms with
  | nil => intro best minu; rfl
  | cons m rest ih =>
    intro best minu
    rw [pureMinLoop, List.foldl_cons]
    by_cases h : fv m < minu
    · rw [if_pos h, ih, min_eq_right h.le]
    · rw [if_neg h, ih, min_eq_left (not_lt.mp h)]

theorem pureMaxLoop_fst (fv : Move → V) :
    ∀ ms best maxu, (pureMaxLoop fv ms best maxu).1 =
      if maxu < ms.foldl (fun a m => max a (fv m)) maxu then
        ms.find? fun m => decide (fv m = ms.foldl (fun a m => max a (fv m)) maxu)
      else best := by
  intro ms
  induction ms with
  | nil =>
    intro best maxu
    rw [pureMaxLoop, List.foldl_nil, if_neg (lt_irrefl maxu)]
  | cons m rest ih =>
    intro best maxu
    rw [pureMaxLoop, List.foldl_cons]
    by_cases h : maxu < fv m
    · rw [if_pos h, max_eq_right h.le, ih]
      have hle : fv m ≤ rest.foldl (fun a m => max a (fv m)) (fv m) := le_foldl_max _ _ _
      have hM : maxu < rest.foldl (fun a m => max a (fv m)) (fv m) := lt_of_lt_of_le h hle
      rw [if_pos hM]
      by_cases hEq : fv m = rest.foldl (fun a m => max a (fv m)) (fv m)
      · rw [if_neg (by rw [← hEq]; exact lt_irrefl _),
          List.find?_cons_of_pos _ (by simpa using hEq)]
      · rw [if_pos (lt_of_le_of_ne hle hEq),
          List.find?_cons_of_neg _ (by simpa using hEq)]
    · rw [if_neg h, max_eq_left (not_lt.mp h), ih]
      by_cases hM : maxu < rest.foldl (fun a m => max a (fv m)) maxu
      · rw [if_pos hM, if_pos hM,
          List.find?_cons_of_neg _ (by
            simp only [decide_eq_true_eq]
            intro hEq
            exact absurd (hEq ▸ hM) (not_lt.mpr (not_lt.mp h)))]
      · rw [if_neg hM, if_neg hM]

theorem pureMinLoop_fst (fv : Move → V) :
    ∀ ms best minu, (pureMinLoop fv ms best minu).1 =
      if ms.foldl (fun a m => min a (fv m)) minu < minu then
        ms.find? fun m => decide (fv m = ms.foldl (fun a m => min a (fv m)) minu)
      else best := by
  intro ms
  induction ms with
  | nil =>
    intro best minu
    rw [pureMinLoop, List.foldl_nil, if_neg (lt_irrefl minu)]
  | cons m rest ih =>
    intro best minu
    rw [pureMinLoop, List.foldl_cons]
    by_cases h : fv m < minu
    · rw [if_pos h, min_eq_right h.le, ih]
      have hle : rest.foldl (fun a m => min a (fv m)) (fv m) ≤ fv m := foldl_min_le _ _ _
      have hM : rest.foldl (fun a m => min a (fv m)) (fv m) < minu := lt_of_le_of_lt hle h
      rw [if_pos hM]
      by_cases hEq : fv m = rest.foldl (fun a m => min a (fv m)) (fv m)
      · rw [if_neg (by rw [← hEq]; exact lt_irrefl _),
          List.find?_cons_of_pos _ (by simpa using hEq)]
      · rw [if_pos (lt_of_le_of_ne hle (Ne.symm hEq)),
          List.find?_cons_of_neg _ (by simpa using hEq)]
    · rw [if_neg h, min_eq_left (not_lt.mp h), ih]
      by_cases hM : rest.foldl (fun a m => min a (fv m)) minu < minu
      · rw [if_pos hM, if_pos hM,
          List.find?_cons_of_neg _ (by
            simp only [decide_eq_true_eq]
            intro hEq
            exact absurd (hEq ▸ hM) (not_lt.mpr (not_lt.mp h)))]
      · rw [if_neg hM, if_neg hM]

/-! ### Search values are finite integers -/

theorem iv_ne_bot (z : ℤ) : iv z ≠ ⊥ := (bot_lt_iv z).ne'

theorem iv_ne_top (z : ℤ) : iv z ≠ ⊤ := (iv_lt_top z).ne

theorem mm_vals_ne (S : Shared) (c : ℤ) : ∀ l (b : Board),
    (mmMaxVal S b c l ≠ ⊥ ∧ mmMaxVal S b c l ≠ ⊤) ∧
      (mmMinVal S b c l ≠ ⊥ ∧ mmMinVal S b c l ≠ ⊤) := by
  intro l
  induction l with
  | zero =>
    intro b
    rw [mmMaxVal_zero, mmMinVal_zero]
    exact ⟨⟨iv_ne_bot _, iv_ne_top _⟩, ⟨iv_ne_bot _, iv_ne_top _⟩⟩
  | succ l ih =>
    intro b
    constructor
    · by_cases hm : S.get_possible_moves b c = []
      · rw [mmMaxVal_nil S b c l hm]; exact ⟨iv_ne_bot _, iv_ne_top _⟩
      · rw [mmMaxVal_succ S b c l hm, pureMaxLoop_snd]
        exact foldl_max_ne _ _ hm fun m _ => (ih (S.play_move b c m.1 m.2)).2
    · by_cases hm : S.get_possible_moves b (if c = 1 then 2 else 1) = []
      · rw [mmMinVal_nil S b c l hm]; exact ⟨iv_ne_bot _, iv_ne_top _⟩
      · rw [mmMinVal_succ S b c l hm, pureMinLoop_snd]
        exact foldl_min_ne _ _ hm fun m _ =>
          (ih (S.play_move b (if c = 1 then 2 else 1) m.1 m.2)).1

/-! ### C4: stable first-argmax / first-argmin selection -/

theorem minimax_max_node_empty_succ (S : Shared) (b : Board) (c : ℤ) (l : ℕ)
    (hm : S.get_possible_moves b c ≠ []) :
    minimax_max_node S b c (l + 1) false Cache.empty =
      ((pureMaxLoop (fun m => mmMinVal S (S.play_move b c m.1 m.2) c l)
          (S.get_possible_moves b c) none ⊥).1,
        (pureMaxLoop (fun m => mmMinVal S (S.play_move b c m.1 m.2) c l)
          (S.get_possible_moves b c) none ⊥).2,
        Cache.empty) := by
  rw [minimax_max_node_succ S b c l false Cache.empty (fun h => nomatch h) hm]
  rw [mmMaxLoop_pure
    (fun m g' =>
      let q := minimax_min_node S (S.play_move b c m.1 m.2) c l false g'
      (q.2.1, q.2.2))
    (fun m => mmMinVal S (S.play_move b c m.1 m.2) c l)
    (fun m g' => by
      show ((minimax_min_node S _ c l false g').2.1,
        (minimax_min_node S _ c l false g').2.2) = _
      rw [(minimax_nocache S c l _ g').1])]
  rfl

theorem minimax_min_node_empty_succ (S : Shared) (b : Board) (c : ℤ) (l : ℕ)
    (hm : S.get_possible_moves b (if c = 1 then 2 else 1) ≠ []) :
    minimax_min_node S b c (l + 1) false Cache.empty =
      ((pureMinLoop
          (fun m => mmMaxVal S (S.play_move b (if c = 1 then 2 else 1) m.1 m.2) c l)
          (S.get_possible_moves b (if c = 1 then 2 else 1)) none ⊤).1,
        (pureMinLoop
          (fun m => mmMaxVal S (S.play_move b (if c = 1 then 2 else 1) m.1 m.2) c l)
          (S.get_possible_moves b (if c = 1 then 2 else 1)) none ⊤).2,
        Cache.empty) := by
  rw [minimax_min_node_succ S b c l false Cache.empty (fun h => nomatch h) hm]
  rw [mmMinLoop_pure
    (fun m g' =>
      let q := minimax_max_node S
        (S.play_move b (if c = 1 then 2 else 1) m.1 m.2) c l false g'
      (q.2.1, q.2.2))
    (fun m => mmMaxVal S (S.play_move b (if c = 1 then 2 else 1) m.1 m.2) c l)
    (fun m g' => by
      show ((minimax_max_node S _ c l false g').2.1,
        (minimax_max_node S _ c l false g').2.2) = _
      rw [(minimax_nocache S c l _ g').2])]
  rfl

/-- C4: without caching, at nonzero depth and with legal moves available,
`minimax_max_node` returns the first move (in the Move Oracle's enumeration
order) whose successor achieves the strictly greatest `minimax_min_node`
value — strict comparison, so the first move wins ties — paired with that
greatest value; `minimax_min_node` symmetrically enumerates the opponent's
moves and returns the first one achieving the strictly least
`minimax_max_node` value.  All child values (`mmMinVal`/`mmMaxVal`) are
evaluated from the root color `c`'s perspective, never the mover's. -/
theorem minimax_first_argmax (S : Shared) (b : Board) (c : ℤ) (l : ℕ) :
    (S.get_possible_moves b c ≠ [] →
      minimax_max_node S b c (l + 1) false Cache.empty =
        ((S.get_possible_moves b c).find? (fun m =>
            decide (mmMinVal S (S.play_move b c m.1 m.2) c l =
              (S.get_possible_moves b c).foldl
                (fun a m' => max a (mmMinVal S (S.play_move b c m'.1 m'.2) c l)) ⊥)),
          (S.get_possible_moves b c).foldl
            (fun a m' => max a (mmMinVal S (S.play_move b c m'.1 m'.2) c l)) ⊥,
          Cache.empty)) ∧
    (S.get_possible_moves b (if c = 1 then 2 else 1) ≠ [] →
      minimax_min_node S b c (l + 1) false Cache.empty =
        ((S.get_possible_moves b (if c = 1 then 2 else 1)).find? (fun m =>
            decide (mmMaxVal S (S.play_move b (if c = 1 then 2 else 1) m.1 m.2) c l =
              (S.get_possible_moves b (if c = 1 then 2 else 1)).foldl
                (fun a m' => min a
                  (mmMaxVal S (S.play_move b (if c = 1 then 2 else 1) m'.1 m'.2) c l)) ⊤)),
          (S.get_possible_moves b (if c = 1 then 2 else 1)).foldl
            (fun a m' => min a
              (mmMaxVal S (S.play_move b (if c = 1 then 2 else 1) m'.1 m'.2) c l)) ⊤,
          Cache.empty)) := by
  constructor
  · intro hm
    rw [minimax_max_node_empty_succ S b c l hm, pureMaxLoop_fst, pureMaxLoop_snd]
    have hne := foldl_max_ne (fun m => mmMinVal S (S.play_move b c m.1 m.2) c l)
      (S.get_possible_moves b c) hm
      (fun m _ => (mm_vals_ne S c l (S.play_move b c m.1 m.2)).2)
    rw [if_pos (bot_lt_iff_ne_bot.mpr hne.1)]
  · intro hm
    rw [minimax_min_node_empty_succ S b c l hm, pureMinLoop_fst, pureMinLoop_snd]
    have hne := foldl_min_ne
      (fun m => mmMaxVal S (S.play_move b (if c = 1 then 2 else 1) m.1 m.2) c l)
      (S.get_possible_moves b (if c = 1 then 2 else 1)) hm
      (fun m _ =>
        (mm_vals_ne S c l (S.play_move b (if c = 1 then 2 else 1) m.1 m.2)).1)
    rw [if_pos (lt_top_iff_ne_top.mpr hne.2)]

/-- Witness for C4 at concrete inputs with legal moves and nonzero depth. -/
theorem minimax_first_argmax_witness :
    (Scex.get_possible_moves [[0]] 1 ≠ [] ∧
      minimax_max_node Scex [[0]] 1 2 false Cache.empty =
        ((Scex.get_possible_moves [[0]] 1).find? (fun m =>
            decide (mmMinVal Scex (Scex.play_move [[0]] 1 m.1 m.2) 1 1 =
              (Scex.get_possible_moves [[0]] 1).foldl
                (fun a m' => max a (mmMinVal Scex (Scex.play_move [[0]] 1 m'.1 m'.2) 1 1)) ⊥)),
          (Scex.get_possible_moves [[0]] 1).foldl
            (fun a m' => max a (mmMinVal Scex (Scex.play_move [[0]] 1 m'.1 m'.2) 1 1)) ⊥,
          Cache.empty)) ∧
    (Scex.get_possible_moves [[1]] (if (1 : ℤ) = 1 then 2 else 1) ≠ [] ∧
      minimax_min_node Scex [[1]] 1 2 false Cache.empty =
        ((Scex.get_possible_moves [[1]] (if (1 : ℤ) = 1 then 2 else 1)).find? (fun m =>
            decide (mmMaxVal Scex
                (Scex.play_move [[1]] (if (1 : ℤ) = 1 then 2 else 1) m.1 m.2) 1 1 =
              (Scex.get_possible_moves [[1]] (if (1 : ℤ) = 1 then 2 else 1)).foldl
                (fun a m' => min a
                  (mmMaxVal Scex
                    (Scex.play_move [[1]] (if (1 : ℤ) = 1 then 2 else 1) m'.1 m'.2) 1 1)) ⊤)),
          (Scex.get_possible_moves [[1]] (if (1 : ℤ) = 1 then 2 else 1)).foldl
            (fun a m' => min a
              (mmMaxVal Scex
                (Scex.play_move [[1]] (if (1 : ℤ) = 1 then 2 else 1) m'.1 m'.2) 1 1)) ⊤,
          Cache.empty)) :=
  ⟨⟨by decide, (minimax_first_argmax Scex [[0]] 1 1).1 (by decide)⟩,
    ⟨by decide, (minimax_first_argmax Scex [[1]] 1 1).2 (by decide)⟩⟩

/-! ### The fail-soft bound lemma for alpha-beta pruning -/

theorem ABapprox_self (v alpha beta : V) : ABapprox v v alpha beta :=
  ⟨fun _ => le_refl v, fun _ _ => rfl, fun _ => le_refl v⟩

theorem pureAbMaxLoop_approx (av : Board → V → V → V) (w : Board → V)
    (H : ∀ bd a bb, a < bb → ABapprox (av bd a bb) (w bd) a bb) :
    ∀ (ss : List (Board × Move)) (alpha0 beta maxu T : V) (best : Option Move),
      alpha0 < beta → maxu < beta → T ≤ maxu → (maxu ≤ alpha0 ∨ maxu ≤ T) →
      ABapprox ((pureAbMaxLoop av ss (max alpha0 maxu) beta best maxu).2)
        (ss.foldl (fun a s => max a (w s.1)) T) alpha0 beta := by
  intro ss
  induction ss with
  | nil =>
    intro alpha0 beta maxu T best hab hmb hTm hdisj
    rw [pureAbMaxLoop, List.foldl_nil]
    refine ⟨fun _ => hTm, fun hav _ => ?_, fun hbv => absurd hbv (not_le.mpr hmb)⟩
    rcases hdisj with h | h
    · exact absurd hav (not_lt.mpr h)
    · exact le_antisymm h hTm
  | cons s rest ih =>
    intro alpha0 beta maxu T best hab hmb hTm hdisj
    have hwin : max alpha0 maxu < beta := max_lt hab hmb
    have CH := H s.1 (max alpha0 maxu) beta hwin
    rw [pureAbMaxLoop, List.foldl_cons]
    simp only [ifMaxEq]
    by_cases hcut : beta ≤ max maxu (av s.1 (max alpha0 maxu) beta)
    · rw [if_pos hcut]
      have hvnu : max maxu (av s.1 (max alpha0 maxu) beta) =
          av s.1 (max alpha0 maxu) beta := by
        rcases max_choice maxu (av s.1 (max alpha0 maxu) beta) with h | h
        · exact absurd (h ▸ hcut) (not_le.mpr hmb)
        · exact h
      refine ⟨fun hva => absurd (lt_of_lt_of_le hab hcut) (not_lt.mpr hva),
        fun _ hvb => absurd hcut (not_le.mpr hvb), fun _ => ?_⟩
      have hnu_le_w : av s.1 (max alpha0 maxu) beta ≤ w s.1 :=
        CH.2.2 (hvnu ▸ hcut)
      show max maxu (av s.1 (max alpha0 maxu) beta) ≤
        rest.foldl (fun a s => max a (w s.1)) (max T (w s.1))
      calc max maxu (av s.1 (max alpha0 maxu) beta) ≤ w s.1 := by
            rw [hvnu]; exact hnu_le_w
        _ ≤ max T (w s.1) := le_max_right T (w s.1)
        _ ≤ rest.foldl (fun a s => max a (w s.1)) (max T (w s.1)) := le_foldl_max _ _ _
    · rw [if_neg hcut]
      have hcont : max maxu (av s.1 (max alpha0 maxu) beta) < beta := not_le.mp hcut
      have hnu_lt : av s.1 (max alpha0 maxu) beta < beta :=
        lt_of_le_of_lt (le_max_right _ _) hcont
      have hw_le : w s.1 ≤ max maxu (av s.1 (max alpha0 maxu) beta) := by
        by_cases hnua : av s.1 (max alpha0 maxu) beta ≤ max alpha0 maxu
        · exact le_trans (CH.1 hnua) (le_max_right _ _)
        · have h := CH.2.1 (not_le.mp hnua) hnu_lt
          rw [← h]
          exact le_max_right _ _
      have halpha_arg : max (max alpha0 maxu) (max maxu (av s.1 (max alpha0 maxu) beta)) =
          max alpha0 (max maxu (av s.1 (max alpha0 maxu) beta)) := by
        rw [max_assoc alpha0 maxu (max maxu (av s.1 (max alpha0 maxu) beta)),
          ← max_assoc maxu maxu (av s.1 (max alpha0 maxu) beta), max_self]
      have hTm' : max T (w s.1) ≤ max maxu (av s.1 (max alpha0 maxu) beta) :=
        max_le (le_trans hTm (le_max_left _ _)) hw_le
      have hdisj' : max maxu (av s.1 (max alpha0 maxu) beta) ≤ alpha0 ∨
          max maxu (av s.1 (max alpha0 maxu) beta) ≤ max T (w s.1) := by
        by_cases hup : maxu < av s.1 (max alpha0 maxu) beta
        · rw [max_eq_right hup.le]
          by_cases hnua : av s.1 (max alpha0 maxu) beta ≤ max alpha0 maxu
          · left
            rcases le_max_iff.mp hnua with h | h
            · exact h
            · exact absurd hup (not_lt.mpr h)
          · right
            rw [CH.2.1 (not_le.mp hnua) hnu_lt]
            exact le_max_right T (w s.1)
        · rw [max_eq_left (not_lt.mp hup)]
          rcases hdisj with h | h
          · exact Or.inl h
          · exact Or.inr (le_trans h (le_max_left T (w s.1)))
      have := ih alpha0 beta (max maxu (av s.1 (max alpha0 maxu) beta))
        (max T (w s.1))
        (if maxu < av s.1 (max alpha0 maxu) beta then some s.2 else best)
        hab hcont hTm' hdisj'
      rw [halpha_arg]
      exact this

theorem pureAbMinLoop_approx (av : Board → V → V → V) (w : Board → V)
    (H : ∀ bd a bb, a < bb → ABapprox (av bd a bb) (w bd) a bb) :
    ∀ (ss : List (Board × Move)) (alpha beta0 minu T : V) (best : Option Move),
      alpha < beta0 → alpha < minu → minu ≤ T → (beta0 ≤ minu ∨ T ≤ minu) →
      ABapprox ((pureAbMinLoop av ss alpha (min beta0 minu) best minu).2)
        (ss.foldl (fun a s => min a (w s.1)) T) alpha beta0 := by
  intro ss
  induction ss with
  | nil =>
    intro alpha beta0 minu T best hab ham hTm hdisj
    rw [pureAbMinLoop, List.foldl_nil]
    refine ⟨fun hva => absurd ham (not_lt.mpr hva), fun _ hvb => ?_, fun _ => hTm⟩
    rcases hdisj with h | h
    · exact absurd hvb (not_lt.mpr h)
    · exact le_antisymm hTm h
  | cons s rest ih =>
    intro alpha beta0 minu T best hab ham hTm hdisj
    have hwin : alpha < min beta0 minu := lt_min hab ham
    have CH := H s.1 alpha (min beta0 minu) hwin
    rw [pureAbMinLoop, List.foldl_cons]
    simp only [ifMinEq]
    by_cases hcut : min minu (av s.1 alpha (min beta0 minu)) ≤ alpha
    · rw [if_pos hcut]
      have hvnu : min minu (av s.1 alpha (min beta0 minu)) =
          av s.1 alpha (min beta0 minu) := by
        rcases min_choice minu (av s.1 alpha (min beta0 minu)) with h | h
        · exact absurd (h ▸ hcut) (not_le.mpr ham)
        · exact h
      refine ⟨fun _ => ?_, fun hav _ => absurd hav (not_lt.mpr hcut),
        fun hbv => absurd (lt_of_le_of_lt hcut hab) (not_lt.mpr hbv)⟩
      have hw_le_nu : w s.1 ≤ av s.1 alpha (min beta0 minu) :=
        CH.1 (hvnu ▸ hcut)
      show rest.foldl (fun a s => min a (w s.1)) (min T (w s.1)) ≤
        min minu (av s.1 alpha (min beta0 minu))
      calc rest.foldl (fun a s => min a (w s.1)) (min T (w s.1)) ≤
            min T (w s.1) := foldl_min_le _ _ _
        _ ≤ w s.1 := min_le_right T (w s.1)
        _ ≤ min minu (av s.1 alpha (min beta0 minu)) := by
            rw [hvnu]; exact hw_le_nu
    · rw [if_neg hcut]
      have hcont : alpha < min minu (av s.1 alpha (min beta0 minu)) := not_le.mp hcut
      have hnu_gt : alpha < av s.1 alpha (min beta0 minu) :=
        lt_of_lt_of_le hcont (min_le_right _ _)
      have hw_ge : min minu (av s.1 alpha (min beta0 minu)) ≤ w s.1 := by
        by_cases hnub : min beta0 minu ≤ av s.1 alpha (min beta0 minu)
        · exact le_trans (min_le_right _ _) (CH.2.2 hnub)
        · have h := CH.2.1 hnu_gt (not_le.mp hnub)
          rw [← h]
          exact min_le_right _ _
      have hbeta_arg : min (min beta0 minu) (min minu (av s.1 alpha (min beta0 minu))) =
          min beta0 (min minu (av s.1 alpha (min beta0 minu))) := by
        rw [min_assoc beta0 minu (min minu (av s.1 alpha (min beta0 minu))),
          ← min_assoc minu minu (av s.1 alpha (min beta0 minu)), min_self]
      have hTm' : min minu (av s.1 alpha (min beta0 minu)) ≤ min T (w s.1) :=
        le_min (le_trans (min_le_left _ _) hTm) hw_ge
      have hdisj' : beta0 ≤ min minu (av s.1 alpha (min beta0 minu)) ∨
          min T (w s.1) ≤ min minu (av s.1 alpha (min beta0 minu)) := by
        by_cases hdn : av s.1 alpha (min beta0 minu) < minu
        · rw [min_eq_right hdn.le]
          by_cases hnub : min beta0 minu ≤ av s.1 alpha (min beta0 minu)
          · left
            rcases min_le_iff.mp hnub with h | h
            · exact h
            · exact absurd hdn (not_lt.mpr h)
          · right
            rw [CH.2.1 hnu_gt (not_le.mp hnub)]
            exact min_le_right T (w s.1)
        · rw [min_eq_left (not_lt.mp hdn)]
          rcases hdisj with h | h
          · exact Or.inl h
          · exact Or.inr (le_trans (min_le_left T (w s.1)) h)
      have := ih alpha beta0 (min minu (av s.1 alpha (min beta0 minu)))
        (min T (w s.1))
        (if av s.1 alpha (min beta0 minu) < minu then some s.2 else best)
        hab hcont hTm' hdisj'
      rw [hbeta_arg]
      exact this

theorem abMaxSuccs_fold (S : Shared) (b : Board) (c : ℤ) (ord : Bool) (l : ℕ)
    (hm : S.get_possible_moves b c ≠ []) :
    (abMaxSuccs S b c ord).foldl (fun a s => max a (mmMinVal S s.1 c l)) ⊥ =
      mmMaxVal S b c (l + 1) := by
  rw [mmMaxVal_succ S b c l hm, pureMaxLoop_snd, abMaxSuccs]
  cases ord with
  | false =>
    simp only [Bool.false_eq_true, if_false]
    rw [List.foldl_map]
  | true =>
    simp only [if_true]
    have hperm := List.perm_insertionSort
      (fun s t => compute_utility S t.1 c ≤ compute_utility S s.1 c)
      ((S.get_possible_moves b c).map fun m => (S.play_move b c m.1 m.2, m))
    letI : RightCommutative (fun (a : V) (s : Board × Move) =>
        max a (mmMinVal S s.1 c l)) :=
      ⟨fun x s t => Max.right_comm x _ _⟩
    rw [hperm.foldl_eq ⊥, List.foldl_map]

theorem abMinSuccs_fold (S : Shared) (b : Board) (c : ℤ) (ord : Bool) (l : ℕ)
    (hm : S.get_possible_moves b (if c = 1 then 2 else 1) ≠ []) :
    (abMinSuccs S b c ord).foldl (fun a s => min a (mmMaxVal S s.1 c l)) ⊤ =
      mmMinVal S b c (l + 1) := by
  rw [mmMinVal_succ S b c l hm, pureMinLoop_snd, abMinSuccs]
  cases ord with
  | false =>
    simp only [Bool.false_eq_true, if_false]
    rw [List.foldl_map]
  | true =>
    simp only [if_true]
    have hperm := List.perm_insertionSort
      (fun s t => compute_utility S s.1 c ≤ compute_utility S t.1 c)
      ((S.get_possible_moves b (if c = 1 then 2 else 1)).map fun m =>
        (S.play_move b (if c = 1 then 2 else 1) m.1 m.2, m))
    letI : RightCommutative (fun (a : V) (s : Board × Move) =>
        min a (mmMaxVal S s.1 c l)) :=
      ⟨fun x s t => min_right_comm x _ _⟩
    rw [hperm.foldl_eq ⊤, List.foldl_map]

/-- The central soundness result: at every window `alpha < beta`, the
alpha-beta node value is an `ABapprox` of the corresponding minimax value
(exact inside the window, a sound bound outside), for either ordering flag. -/
theorem ab_mm_approx (S : Shared) (c : ℤ) (ord : Bool) :
    ∀ l (b : Board) (alpha beta : V), alpha < beta →
      ABapprox (abMaxVal S b c alpha beta l ord) (mmMaxVal S b c l) alpha beta ∧
      ABapprox (abMinVal S b c alpha beta l ord) (mmMinVal S b c l) alpha beta := by
  intro l
  induction l with
  | zero =>
    intro b alpha beta _
    rw [abMaxVal_zero, mmMaxVal_zero, abMinVal_zero, mmMinVal_zero]
    exact ⟨ABapprox_self _ _ _, ABapprox_self _ _ _⟩
  | succ l ih =>
    intro b alpha beta hab
    constructor
    · by_cases hm : S.get_possible_moves b c = []
      · rw [abMaxVal_nil S b c alpha beta l ord hm, mmMaxVal_nil S b c l hm]
        exact ABapprox_self _ _ _
      · rw [abMaxVal_succ S b c alpha beta l ord hm, ← abMaxSuccs_fold S b c ord l hm]
        have h := pureAbMaxLoop_approx
          (fun b' a bb => abMinVal S b' c a bb l ord)
          (fun b' => mmMinVal S b' c l)
          (fun bd a bb hw => (ih bd a bb hw).2)
          (abMaxSuccs S b c ord) alpha beta ⊥ ⊥ none
          hab (lt_of_le_of_lt bot_le hab) (le_refl ⊥) (Or.inl bot_le)
        rw [max_eq_left bot_le] at h
        exact h
    · by_cases hm : S.get_possible_moves b (if c = 1 then 2 else 1) = []
      · rw [abMinVal_nil S b c alpha beta l ord hm, mmMinVal_nil S b c l hm]
        exact ABapprox_self _ _ _
      · rw [abMinVal_succ S b c alpha beta l ord hm, ← abMinSuccs_fold S b c ord l hm]
        have h := pureAbMinLoop_approx
          (fun b' a bb => abMaxVal S b' c a bb l ord)
          (fun b' => mmMaxVal S b' c l)
          (fun bd a bb hw => (ih bd a bb hw).1)
          (abMinSuccs S b c ord) alpha beta ⊤ ⊤ none
          hab (lt_of_lt_of_le hab le_top) (le_refl ⊤) (Or.inl le_top)
        rw [min_eq_left le_top] at h
        exact h

/-- With the full window `(-inf, inf)` and caching off, the alpha-beta max
node computes exactly the minimax max value, for either ordering flag. -/
theorem ab_eq_mm (S : Shared) (b : Board) (c : ℤ) (l : ℕ) (ord : Bool) :
    abMaxVal S b c ⊥ ⊤ l ord = mmMaxVal S b c l := by
  have h := (ab_mm_approx S c ord l b ⊥ ⊤ bot_lt_top).1
  rcases le_or_lt (abMaxVal S b c ⊥ ⊤ l ord) ⊥ with hle | hgt
  · have hv : abMaxVal S b c ⊥ ⊤ l ord = ⊥ := le_bot_iff.mp hle
    have ht := h.1 hle
    rw [hv] at ht ⊢
    exact (le_bot_iff.mp ht).symm
  · rcases lt_or_le (abMaxVal S b c ⊥ ⊤ l ord) ⊤ with hlt | hge
    · exact h.2.1 hgt hlt
    · have hv : abMaxVal S b c ⊥ ⊤ l ord = ⊤ := top_le_iff.mp hge
      have ht := h.2.2 hge
      rw [hv] at ht ⊢
      exact (top_le_iff.mp ht).symm

/-- C1 (amended): with caching disabled — and with or without move
ordering — the root value computed by `alphabeta_max_node` over the full
window equals the root value computed by `minimax_max_node`, for every
board, color and depth limit.  (With caching enabled the equality fails:
see the counterexample.) -/
theorem alphabeta_root_value_eq_minimax (S : Shared) (b : Board) (c : ℤ)
    (l : ℕ) (ord : Bool) :
    (alphabeta_max_node S b c ⊥ ⊤ l false ord Cache.empty).2.1 =
      (minimax_max_node S b c l false Cache.empty).2.1 :=
  show abMaxVal S b c ⊥ ⊤ l ord = mmMaxVal S b c l from ab_eq_mm S b c l ord

/-- C1 counterexample: with caching enabled on both sides, on the
transposition game `Scex`, the root alpha-beta value (5) differs from the
root minimax value (7): an alpha-beta cutoff stores the bound 5 for the
transposed board `[[4]]` (true value 10), and the cached bound is later
reused exactly, changing the root value. -/
theorem alphabeta_caching_root_value_ne :
    (alphabeta_max_node Scex [[0]] 1 ⊥ ⊤ 3 true false Cache.empty).2.1 ≠
      (minimax_max_node Scex [[0]] 1 3 true Cache.empty).2.1 := by decide

/-- C5 (amended): with caching disabled, enabling move ordering never
changes the root value computed by the alpha-beta selector (which invokes
the root max node at depth `limit - 1` over the full window): either way
the value is the minimax value.  (With caching enabled ordering can change
the value: see the counterexample.) -/
theorem alphabeta_ordering_value_invariant (S : Shared) (b : Board) (c : ℤ)
    (limit : ℕ) :
    (alphabeta_max_node S b c ⊥ ⊤ (limit - 1) false true Cache.empty).2.1 =
      (alphabeta_max_node S b c ⊥ ⊤ (limit - 1) false false Cache.empty).2.1 := by
  show abMaxVal S b c ⊥ ⊤ (limit - 1) true = abMaxVal S b c ⊥ ⊤ (limit - 1) false
  rw [ab_eq_mm S b c (limit - 1) true, ab_eq_mm S b c (limit - 1) false]

/-- C5 counterexample: with caching enabled, the root value of the
alpha-beta search on `Scex` at depth 3 (as invoked by
`select_move_alphabeta` with depth limit 4) is 7 with ordering but 5
without: ordering changes which bounds get cached, and the cached bounds
leak into the returned value. -/
theorem alphabeta_ordering_caching_value_ne :
    (alphabeta_max_node Scex [[0]] 1 ⊥ ⊤ 3 true true Cache.empty).2.1 ≠
      (alphabeta_max_node Scex [[0]] 1 ⊥ ⊤ 3 true false Cache.empty).2.1 := by
  decide

/-! ### C2: caching invariance at shallow depths -/

theorem CacheUtil_empty (S : Shared) (c : ℤ) : CacheUtil S c Cache.empty :=
  fun _ v h => nomatch h

theorem CacheUtil_insert (S : Shared) (c : ℤ) (g : Cache) (hg : CacheUtil S c g)
    (b : Board) :
    CacheUtil S c (g.insert b (iv (compute_utility S b c))) := by
  intro b' v h
  rw [Cache.insert] at h
  by_cases hb : b' = b
  · rw [if_pos hb] at h
    cases h
    rw [hb]
  · rw [if_neg hb] at h
    exact hg b' v h

theorem minimax_min_node_zero_cachedU (S : Shared) (b : Board) (c : ℤ)
    (g : Cache) (hI : CacheUtil S c g) :
    (minimax_min_node S b c 0 true g).1 = none ∧
      (minimax_min_node S b c 0 true g).2.1 = iv (compute_utility S b c) ∧
      CacheUtil S c (minimax_min_node S b c 0 true g).2.2 := by
  cases hgb : g b with
  | none =>
    rw [minimax_min_node_zero S b c true g (fun _ => hgb)]
    exact ⟨rfl, rfl, by simpa using CacheUtil_insert S c g hI b⟩
  | some v =>
    rw [minimax_min_node_hit S b c 0 g v hgb]
    exact ⟨rfl, hI b v hgb, hI⟩

theorem alphabeta_min_node_zero_cachedU (S : Shared) (b : Board) (c : ℤ)
    (alpha beta : V) (ord : Bool) (g : Cache) (hI : CacheUtil S c g) :
    (alphabeta_min_node S b c alpha beta 0 true ord g).1 = none ∧
      (alphabeta_min_node S b c alpha beta 0 true ord g).2.1 =
        iv (compute_utility S b c) ∧
      CacheUtil S c (alphabeta_min_node S b c alpha beta 0 true ord g).2.2 := by
  cases hgb : g b with
  | none =>
    rw [alphabeta_min_node_zero S b c alpha beta true ord g (fun _ => hgb)]
    exact ⟨rfl, rfl, by simpa using CacheUtil_insert S c g hI b⟩
  | some v =>
    rw [alphabeta_min_node_hit S b c alpha beta 0 ord g v hgb]
    exact ⟨rfl, hI b v hgb, hI⟩

theorem mmMaxLoop_cached1 (S : Shared) (b : Board) (c : ℤ) :
    ∀ (ms : List Move) (best : Option Move) (maxu : V) (g : Cache),
      CacheUtil S c g →
      ((mmMaxLoop (fun m g' =>
          let q := minimax_min_node S (S.play_move b c m.1 m.2) c 0 true g'
          (q.2.1, q.2.2)) ms best maxu g).1 =
        (pureMaxLoop (fun m => iv (compute_utility S (S.play_move b c m.1 m.2) c))
          ms best maxu).1 ∧
       (mmMaxLoop (fun m g' =>
          let q := minimax_min_node S (S.play_move b c m.1 m.2) c 0 true g'
          (q.2.1, q.2.2)) ms best maxu g).2.1 =
        (pureMaxLoop (fun m => iv (compute_utility S (S.play_move b c m.1 m.2) c))
          ms best maxu).2 ∧
       CacheUtil S c ((mmMaxLoop (fun m g' =>
          let q := minimax_min_node S (S.play_move b c m.1 m.2) c 0 true g'
          (q.2.1, q.2.2)) ms best maxu g).2.2)) := by
  intro ms
  induction ms with
  | nil => intro best maxu g hI; exact ⟨rfl, rfl, hI⟩
  | cons m rest ih =>
    intro best maxu g hI
    have hchild := minimax_min_node_zero_cachedU S (S.play_move b c m.1 m.2) c g hI
    simp only [mmMaxLoop, pureMaxLoop, hchild.2.1]
    by_cases h : maxu < iv (compute_utility S (S.play_move b c m.1 m.2) c)
    · simp only [if_pos h]
      exact ih _ _ _ hchild.2.2
    · simp only [if_neg h]
      exact ih _ _ _ hchild.2.2

theorem abMaxLoop_cached1 (S : Shared) (c : ℤ) (ord : Bool) :
    ∀ (ss : List (Board × Move)) (alpha beta : V) (best : Option Move)
      (maxu : V) (g : Cache), CacheUtil S c g →
      ((abMaxLoop (fun b' a bb g' =>
          let q := alphabeta_min_node S b' c a bb 0 true ord g'
          (q.2.1, q.2.2)) ss alpha beta best maxu g).1 =
        (pureAbMaxLoop (fun b' _ _ => iv (compute_utility S b' c))
          ss alpha beta best maxu).1 ∧
       (abMaxLoop (fun b' a bb g' =>
          let q := alphabeta_min_node S b' c a bb 0 true ord g'
          (q.2.1, q.2.2)) ss alpha beta best maxu g).2.1 =
        (pureAbMaxLoop (fun b' _ _ => iv (compute_utility S b' c))
          ss alpha beta best maxu).2 ∧
       CacheUtil S c ((abMaxLoop (fun b' a bb g' =>
          let q := alphabeta_min_node S b' c a bb 0 true ord g'
          (q.2.1, q.2.2)) ss alpha beta best maxu g).2.2)) := by
  intro ss
  induction ss with
  | nil => intro alpha beta best maxu g hI; exact ⟨rfl, rfl, hI⟩
  | cons s rest ih =>
    intro alpha beta best maxu g hI
    have hchild := alphabeta_min_node_zero_cachedU S s.1 c alpha beta ord g hI
    simp only [abMaxLoop, pureAbMaxLoop, hchild.2.1]
    by_cases h : beta ≤
        (if maxu < iv (compute_utility S s.1 c) then iv (compute_utility S s.1 c)
         else maxu)
    · simp only [if_pos h]
      exact ⟨trivial, trivial, hchild.2.2⟩
    · simp only [if_neg h]
      exact ih _ _ _ _ _ hchild.2.2

/-- C2 (amended): enabling caching returns the same move and the same root
value as caching disabled whenever the search below the root node has depth
at most one — depth limit at most 1 for the minimax selector and at most 2
for the alpha-beta selector (which hands `limit − 1` to the root).  At
greater depths caching can change the value: see the counterexample. -/
theorem caching_invariant_shallow (S : Shared) (b : Board) (c : ℤ) (l : ℕ)
    (ord : Bool) :
    (l ≤ 1 →
      ((select_move_minimax S b c l true Cache.empty).1 =
          (select_move_minimax S b c l false Cache.empty).1 ∧
        (minimax_max_node S b c l true Cache.empty).2.1 =
          (minimax_max_node S b c l false Cache.empty).2.1)) ∧
    (l ≤ 2 →
      ((select_move_alphabeta S b c l true ord Cache.empty).1 =
          (select_move_alphabeta S b c l false ord Cache.empty).1 ∧
        (alphabeta_max_node S b c ⊥ ⊤ (l - 1) true ord Cache.empty).2.1 =
          (alphabeta_max_node S b c ⊥ ⊤ (l - 1) false ord Cache.empty).2.1)) := by
  have hmm : ∀ l', l' ≤ 1 →
      (minimax_max_node S b c l' true Cache.empty).1 =
        (minimax_max_node S b c l' false Cache.empty).1 ∧
      (minimax_max_node S b c l' true Cache.empty).2.1 =
        (minimax_max_node S b c l' false Cache.empty).2.1 := by
    intro l' hl'
    match l', hl' with
    | 0, _ =>
      rw [minimax_max_node_zero S b c true Cache.empty (fun _ => rfl),
        minimax_max_node_zero S b c false Cache.empty (fun _ => rfl)]
      exact ⟨by trivial, by trivial⟩
    | 1, _ =>
      by_cases hm : S.get_possible_moves b c = []
      · rw [minimax_max_node_nil S b c 0 true Cache.empty (fun _ => rfl) hm,
          minimax_max_node_nil S b c 0 false Cache.empty (fun _ => rfl) hm]
        exact ⟨by trivial, by trivial⟩
      · rw [show (1 : ℕ) = 0 + 1 from rfl,
          minimax_max_node_succ S b c 0 true Cache.empty (fun _ => rfl) hm,
          minimax_max_node_empty_succ S b c 0 hm]
        have hloop := mmMaxLoop_cached1 S b c (S.get_possible_moves b c) none ⊥
          Cache.empty (CacheUtil_empty S c)
        have hfv : (fun (m : Move) => mmMinVal S (S.play_move b c m.1 m.2) c 0) =
            fun (m : Move) => iv (compute_utility S (S.play_move b c m.1 m.2) c) :=
          funext fun m => mmMinVal_zero S (S.play_move b c m.1 m.2) c
        rw [hfv]
        exact ⟨hloop.1, hloop.2.1⟩
  have hab : ∀ l', l' ≤ 1 → ∀ alpha beta,
      (alphabeta_max_node S b c alpha beta l' true ord Cache.empty).1 =
        (alphabeta_max_node S b c alpha beta l' false ord Cache.empty).1 ∧
      (alphabeta_max_node S b c alpha beta l' true ord Cache.empty).2.1 =
        (alphabeta_max_node S b c alpha beta l' false ord Cache.empty).2.1 := by
    intro l' hl' alpha beta
    match l', hl' with
    | 0, _ =>
      rw [alphabeta_max_node_zero S b c alpha beta true ord Cache.empty (fun _ => rfl),
        alphabeta_max_node_zero S b c alpha beta false ord Cache.empty (fun _ => rfl)]
      exact ⟨by trivial, by trivial⟩
    | 1, _ =>
      by_cases hm : S.get_possible_moves b c = []
      · rw [alphabeta_max_node_nil S b c alpha beta 0 true ord Cache.empty
            (fun _ => rfl) hm,
          alphabeta_max_node_nil S b c alpha beta 0 false ord Cache.empty
            (fun _ => rfl) hm]
        exact ⟨by trivial, by trivial⟩
      · rw [show (1 : ℕ) = 0 + 1 from rfl,
          alphabeta_max_node_succ S b c alpha beta 0 true ord Cache.empty
            (fun _ => rfl) hm,
          alphabeta_max_node_succ S b c alpha beta 0 false ord Cache.empty
            (fun _ => rfl) hm]
        have hloop := abMaxLoop_cached1 S c ord (abMaxSuccs S b c ord) alpha beta
          none ⊥ Cache.empty (CacheUtil_empty S c)
        have hloopF := abMaxLoop_pure
          (fun b' a bb g' =>
            let q := alphabeta_min_node S b' c a bb 0 false ord g'
            (q.2.1, q.2.2))
          (fun b' _ _ => iv (compute_utility S b' c))
          (fun b' a bb g' => by
            show ((alphabeta_min_node S b' c a bb 0 false ord g').2.1,
              (alphabeta_min_node S b' c a bb 0 false ord g').2.2) = _
            rw [alphabeta_min_node_zero S b' c a bb false ord g' (fun h => nomatch h)]
            rfl)
          (abMaxSuccs S b c ord) alpha beta none ⊥ Cache.empty
        refine ⟨?_, ?_⟩
        · exact hloop.1.trans (congrArg Prod.fst hloopF).symm
        · exact hloop.2.1.trans
            (congrArg (fun t : Option Move × V × Cache => t.2.1) hloopF).symm
  constructor
  · intro hl
    have h := hmm l hl
    exact ⟨h.1, h.2⟩
  · intro hl
    have h := hab (l - 1) (by omega) ⊥ ⊤
    exact ⟨h.1, h.2⟩

/-- Witness for C2 (amended) at concrete inputs within the depth bounds. -/
theorem caching_invariant_shallow_witness :
    ((select_move_minimax Scex [[0]] 1 1 true Cache.empty).1 =
        (select_move_minimax Scex [[0]] 1 1 false Cache.empty).1 ∧
      (minimax_max_node Scex [[0]] 1 1 true Cache.empty).2.1 =
        (minimax_max_node Scex [[0]] 1 1 false Cache.empty).2.1) ∧
    ((select_move_alphabeta Scex [[0]] 1 2 true false Cache.empty).1 =
        (select_move_alphabeta Scex [[0]] 1 2 false false Cache.empty).1 ∧
      (alphabeta_max_node Scex [[0]] 1 ⊥ ⊤ (2 - 1) true false Cache.empty).2.1 =
        (alphabeta_max_node Scex [[0]] 1 ⊥ ⊤ (2 - 1) false false Cache.empty).2.1) :=
  ⟨(caching_invariant_shallow Scex [[0]] 1 1 false).1 (by decide),
    (caching_invariant_shallow Scex [[0]] 1 2 false).2 (by decide)⟩

/-- C2 counterexample: on the transposition game `Scex`, depth limit 4,
the alpha-beta selector with caching computes root value 5 but without
caching computes 7, so caching does not return the same move-and-value
pair (the moves happen to agree; the values differ). -/
theorem caching_changes_alphabeta_result :
    ¬ ((select_move_alphabeta Scex [[0]] 1 4 true false Cache.empty).1 =
          (select_move_alphabeta Scex [[0]] 1 4 false false Cache.empty).1 ∧
        (alphabeta_max_node Scex [[0]] 1 ⊥ ⊤ (4 - 1) true false Cache.empty).2.1 =
          (alphabeta_max_node Scex [[0]] 1 ⊥ ⊤ (4 - 1) false false Cache.empty).2.1) := by
  decide

/-! ### C10: the searches use only `compute_utility` at leaves and sort keys -/

theorem minimax_ev_eq (S : Shared) (c : ℤ) :
    ∀ l (b : Board) (caching : Bool) (g : Cache),
      minimax_min_node S b c l caching g =
        minimax_min_node_ev S (compute_utility S) b c l caching g ∧
      minimax_max_node S b c l caching g =
        minimax_max_node_ev S (compute_utility S) b c l caching g := by
  intro l
  induction l with
  | zero =>
    intro b caching g
    constructor
    · cases caching with
      | true =>
        cases hgb : g b with
        | some v =>
          rw [minimax_min_node_hit S b c 0 g v hgb,
            minimax_min_node_ev_hit S (compute_utility S) b c 0 g v hgb]
        | none =>
          rw [minimax_min_node_zero S b c true g (fun _ => hgb),
            minimax_min_node_ev_zero S (compute_utility S) b c true g (fun _ => hgb)]
      | false =>
        rw [minimax_min_node_zero S b c false g (fun h => nomatch h),
          minimax_min_node_ev_zero S (compute_utility S) b c false g (fun h => nomatch h)]
    · cases caching with
      | true =>
        cases hgb : g b with
        | some v =>
          rw [minimax_max_node_hit S b c 0 g v hgb,
            minimax_max_node_ev_hit S (compute_utility S) b c 0 g v hgb]
        | none =>
          rw [minimax_max_node_zero S b c true g (fun _ => hgb),
            minimax_max_node_ev_zero S (compute_utility S) b c true g (fun _ => hgb)]
      | false =>
        rw [minimax_max_node_zero S b c false g (fun h => nomatch h),
          minimax_max_node_ev_zero S (compute_utility S) b c false g (fun h => nomatch h)]
  | succ l ih =>
    intro b caching g
    constructor
    · have step : ∀ (caching : Bool) (g : Cache), (caching = true → g b = none) →
          minimax_min_node S b c (l + 1) caching g =
            minimax_min_node_ev S (compute_utility S) b c (l + 1) caching g := by
        intro caching g hg
        by_cases hmv : S.get_possible_moves b (if c = 1 then 2 else 1) = []
        · rw [minimax_min_node_nil S b c l caching g hg hmv,
            minimax_min_node_ev_nil S (compute_utility S) b c l caching g hg hmv]
        · rw [minimax_min_node_succ S b c l caching g hg hmv,
            minimax_min_node_ev_succ S (compute_utility S) b c l caching g hg hmv]
          have hf : (fun (m : Move) (g' : Cache) =>
              let q := minimax_max_node S
                (S.play_move b (if c = 1 then 2 else 1) m.1 m.2) c l caching g'
              (q.2.1, q.2.2)) = fun (m : Move) (g' : Cache) =>
              let q := minimax_max_node_ev S (compute_utility S)
                (S.play_move b (if c = 1 then 2 else 1) m.1 m.2) c l caching g'
              (q.2.1, q.2.2) :=
            funext fun m => funext fun g' => by rw [(ih _ caching g').2]
          rw [hf]
      cases caching with
      | true =>
        cases hgb : g b with
        | some v =>
          rw [minimax_min_node_hit S b c (l + 1) g v hgb,
            minimax_min_node_ev_hit S (compute_utility S) b c (l + 1) g v hgb]
        | none => exact step true g fun _ => hgb
      | false => exact step false g fun h => nomatch h
    · have step : ∀ (caching : Bool) (g : Cache), (caching = true → g b = none) →
          minimax_max_node S b c (l + 1) caching g =
            minimax_max_node_ev S (compute_utility S) b c (l + 1) caching g := by
        intro caching g hg
        by_cases hmv : S.get_possible_moves b c = []
        · rw [minimax_max_node_nil S b c l caching g hg hmv,
            minimax_max_node_ev_nil S (compute_utility S) b c l caching g hg hmv]
        · rw [minimax_max_node_succ S b c l caching g hg hmv,
            minimax_max_node_ev_succ S (compute_utility S) b c l caching g hg hmv]
          have hf : (fun (m : Move) (g' : Cache) =>
              let q := minimax_min_node S (S.play_move b c m.1 m.2) c l caching g'
              (q.2.1, q.2.2)) = fun (m : Move) (g' : Cache) =>
              let q := minimax_min_node_ev S (compute_utility S)
                (S.play_move b c m.1 m.2) c l caching g'
              (q.2.1, q.2.2) :=
            funext fun m => funext fun g' => by rw [(ih _ caching g').1]
          rw [hf]
      cases caching with
      | true =>
        cases hgb : g b with
        | some v =>
          rw [minimax_max_node_hit S b c (l + 1) g v hgb,
            minimax_max_node_ev_hit S (compute_utility S) b c (l + 1) g v hgb]
        | none => exact step true g fun _ => hgb
      | false => exact step false g fun h => nomatch h

theorem alphabeta_ev_eq (S : Shared) (c : ℤ) (ord : Bool) :
    ∀ l (b : Board) (alpha beta : V) (caching : Bool) (g : Cache),
      alphabeta_min_node S b c alpha beta l caching ord g =
        alphabeta_min_node_ev S (compute_utility S) b c alpha beta l caching ord g ∧
      alphabeta_max_node S b c alpha beta l caching ord g =
        alphabeta_max_node_ev S (compute_utility S) b c alpha beta l caching ord g := by
  intro l
  induction l with
  | zero =>
    intro b alpha beta caching g
    constructor
    · cases hc : caching with
      | true =>
        cases hgb : g b with
        | some v =>
          rw [alphabeta_min_node_hit S b c alpha beta 0 ord g v hgb,
            alphabeta_min_node_ev_hit S (compute_utility S) b c alpha beta 0 ord g v hgb]
        | none =>
          rw [alphabeta_min_node_zero S b c alpha beta true ord g (fun _ => hgb),
            alphabeta_min_node_ev_zero S (compute_utility S) b c alpha beta true ord g
              (fun _ => hgb)]
      | false =>
        rw [alphabeta_min_node_zero S b c alpha beta false ord g (fun h => nomatch h),
          alphabeta_min_node_ev_zero S (compute_utility S) b c alpha beta false ord g
            (fun h => nomatch h)]
    · cases hc : caching with
      | true =>
        cases hgb : g b with
        | some v =>
          rw [alphabeta_max_node_hit S b c alpha beta 0 ord g v hgb,
            alphabeta_max_node_ev_hit S (compute_utility S) b c alpha beta 0 ord g v hgb]
        | none =>
          rw [alphabeta_max_node_zero S b c alpha beta true ord g (fun _ => hgb),
            alphabeta_max_node_ev_zero S (compute_utility S) b c alpha beta true ord g
              (fun _ => hgb)]
      | false =>
        rw [alphabeta_max_node_zero S b c alpha beta false ord g (fun h => nomatch h),
          alphabeta_max_node_ev_zero S (compute_utility S) b c alpha beta false ord g
            (fun h => nomatch h)]
  | succ l ih =>
    intro b alpha beta caching g
    constructor
    · have step : ∀ (caching : Bool) (g : Cache), (caching = true → g b = none) →
          alphabeta_min_node S b c alpha beta (l + 1) caching ord g =
            alphabeta_min_node_ev S (compute_utility S) b c alpha beta (l + 1)
              caching ord g := by
        intro caching g hg
        by_cases hmv : S.get_possible_moves b (if c = 1 then 2 else 1) = []
        · rw [alphabeta_min_node_nil S b c alpha beta l caching ord g hg hmv,
            alphabeta_min_node_ev_nil S (compute_utility S) b c alpha beta l caching ord
              g hg hmv]
        · rw [alphabeta_min_node_succ S b c alpha beta l caching ord g hg hmv,
            alphabeta_min_node_ev_succ S (compute_utility S) b c alpha beta l caching ord
              g hg hmv]
          have hf : (fun (b' : Board) (a bb : V) (g' : Cache) =>
              let q := alphabeta_max_node S b' c a bb l caching ord g'
              (q.2.1, q.2.2)) = fun (b' : Board) (a bb : V) (g' : Cache) =>
              let q := alphabeta_max_node_ev S (compute_utility S) b' c a bb l
                caching ord g'
              (q.2.1, q.2.2) :=
            funext fun b' => funext fun a => funext fun bb => funext fun g' => by
              rw [(ih b' a bb caching g').2]
          rw [hf]
      cases caching with
      | true =>
        cases hgb : g b with
        | some v =>
          rw [alphabeta_min_node_hit S b c alpha beta (l + 1) ord g v hgb,
            alphabeta_min_node_ev_hit S (compute_utility S) b c alpha beta (l + 1) ord
              g v hgb]
        | none => exact step true g fun _ => hgb
      | false => exact step false g fun h => nomatch h
    · have step : ∀ (caching : Bool) (g : Cache), (caching = true → g b = none) →
          alphabeta_max_node S b c alpha beta (l + 1) caching ord g =
            alphabeta_max_node_ev S (compute_utility S) b c alpha beta (l + 1)
              caching ord g := by
        intro caching g hg
        by_cases hmv : S.get_possible_moves b c = []
        · rw [alphabeta_max_node_nil S b c alpha beta l caching ord g hg hmv,
            alphabeta_max_node_ev_nil S (compute_utility S) b c alpha beta l caching ord
              g hg hmv]
        · rw [alphabeta_max_node_succ S b c alpha beta l caching ord g hg hmv,
            alphabeta_max_node_ev_succ S (compute_utility S) b c alpha beta l caching ord
              g hg hmv]
          have hf : (fun (b' : Board) (a bb : V) (g' : Cache) =>
              let q := alphabeta_min_node S b' c a bb l caching ord g'
              (q.2.1, q.2.2)) = fun (b' : Board) (a bb : V) (g' : Cache) =>
              let q := alphabeta_min_node_ev S (compute_utility S) b' c a bb l
                caching ord g'
              (q.2.1, q.2.2) :=
            funext fun b' => funext fun a => funext fun bb => funext fun g' => by
              rw [(ih b' a bb caching g').1]
          rw [hf]
      cases caching with
      | true =>
        cases hgb : g b with
        | some v =>
          rw [alphabeta_max_node_hit S b c alpha beta (l + 1) ord g v hgb,
            alphabeta_max_node_ev_hit S (compute_utility S) b c alpha beta (l + 1) ord
              g v hgb]
        | none => exact step true g fun _ => hgb
      | false => exact step false g fun h => nomatch h

/-- C10: the four search node functions and the two selectors coincide, for
all inputs and flag settings, with their evaluator-generic counterparts
instantiated at the exact score differential `compute_utility` — every leaf
evaluation (true terminal, depth-limit exhaustion) and every move-ordering
sort key the search performs is `compute_utility`, and the search never
invokes `compute_heuristic`. -/
theorem search_uses_exact_utility (S : Shared) (b : Board) (c : ℤ)
    (alpha beta : V) (l : ℕ) (caching ord : Bool) (g : Cache) :
    minimax_max_node S b c l caching g =
        minimax_max_node_ev S (compute_utility S) b c l caching g ∧
      minimax_min_node S b c l caching g =
        minimax_min_node_ev S (compute_utility S) b c l caching g ∧
      alphabeta_max_node S b c alpha beta l caching ord g =
        alphabeta_max_node_ev S (compute_utility S) b c alpha beta l caching ord g ∧
      alphabeta_min_node S b c alpha beta l caching ord g =
        alphabeta_min_node_ev S (compute_utility S) b c alpha beta l caching ord g ∧
      select_move_minimax S b c l caching g =
        select_move_minimax_ev S (compute_utility S) b c l caching g ∧
      select_move_alphabeta S b c l caching ord g =
        select_move_alphabeta_ev S (compute_utility S) b c l caching ord g := by
  refine ⟨(minimax_ev_eq S c l b caching g).2, (minimax_ev_eq S c l b caching g).1,
    (alphabeta_ev_eq S c ord l b alpha beta caching g).2,
    (alphabeta_ev_eq S c ord l b alpha beta caching g).1, ?_, ?_⟩
  · rw [select_move_minimax, select_move_minimax_ev,
      (minimax_ev_eq S c l b caching Cache.empty).2]
  · rw [select_move_alphabeta, select_move_alphabeta_ev,
      (alphabeta_ev_eq S c ord (l - 1) b ⊥ ⊤ caching Cache.empty).2]

/-- C8: each selector is deterministic across calls: whatever the state of
the global cache left by earlier calls, a selector invocation with fixed
board, color, depth limit and flags returns the same move, because a fresh
empty cache is allocated at the start of every top-level call. -/
theorem selectors_deterministic (S : Shared) (board : Board) (color : ℤ)
    (limit : ℕ) (caching ordering : Bool) (g₁ g₂ : Cache) :
    (select_move_minimax S board color limit caching g₁).1 =
        (select_move_minimax S board color limit caching g₂).1 ∧
      (select_move_alphabeta S board color limit caching ordering g₁).1 =
        (select_move_alphabeta S board color limit caching ordering g₂).1 :=
  ⟨rfl, rfl⟩

/-- C3: on a board where the acting color has no legal moves, both search
families return the explicit no-move value paired with the exact score
differential for that color, and both selectors return the no-move value. -/
theorem no_moves_terminal (S : Shared) (board : Board) (color : ℤ) (limit : ℕ)
    (caching ordering : Bool) (alpha beta : V) (g : Cache)
    (h : S.get_possible_moves board color = []) :
    (minimax_max_node S board color limit caching Cache.empty).1 = none ∧
    (minimax_max_node S board color limit caching Cache.empty).2.1 =
      iv (compute_utility S board color) ∧
    (alphabeta_max_node S board color alpha beta limit caching ordering Cache.empty).1 = none ∧
    (alphabeta_max_node S board color alpha beta limit caching ordering Cache.empty).2.1 =
      iv (compute_utility S board color) ∧
    (select_move_minimax S board color limit caching g).1 = none ∧
    (select_move_alphabeta S board color limit caching ordering g).1 = none := by
  have hmm : ∀ l, minimax_max_node S board color l caching Cache.empty =
      (none, iv (compute_utility S board color),
        if caching then Cache.empty.insert board (iv (compute_utility S board color))
        else Cache.empty) := by
    intro l
    cases l with
    | zero => exact minimax_max_node_zero S board color caching Cache.empty fun _ => rfl
    | succ l' => exact minimax_max_node_nil S board color l' caching Cache.empty (fun _ => rfl) h
  have hab : ∀ l a bb, alphabeta_max_node S board color a bb l caching ordering Cache.empty =
      (none, iv (compute_utility S board color),
        if caching then Cache.empty.insert board (iv (compute_utility S board color))
        else Cache.empty) := by
    intro l a bb
    cases l with
    | zero => exact alphabeta_max_node_zero S board color a bb caching ordering Cache.empty fun _ => rfl
    | succ l' => exact alphabeta_max_node_nil S board color a bb l' caching ordering Cache.empty (fun _ => rfl) h
  refine ⟨?_, ?_, ?_, ?_, ?_, ?_⟩
  · rw [hmm]
  · rw [hmm]
  · rw [hab]
  · rw [hab]
  · show (minimax_max_node S board color limit caching Cache.empty).1 = none
    rw [hmm]
  · show (alphabeta_max_node S board color ⊥ ⊤ (limit - 1) caching ordering Cache.empty).1 = none
    rw [hab]

/-- Witness for C3 at a concrete input with no legal moves. -/
theorem no_moves_terminal_witness :
    Sdemo.get_possible_moves [[1, 2], [2, 0]] 1 = [] ∧
      (select_move_minimax Sdemo [[1, 2], [2, 0]] 1 3 true Cache.empty).1 = none ∧
      (select_move_alphabeta Sdemo [[1, 2], [2, 0]] 1 3 true true Cache.empty).1 = none :=
  ⟨rfl,
    (no_moves_terminal Sdemo [[1, 2], [2, 0]] 1 3 true true ⊥ ⊤ Cache.empty rfl).2.2.2.2.1,
    (no_moves_terminal Sdemo [[1, 2], [2, 0]] 1 3 true true ⊥ ⊤ Cache.empty rfl).2.2.2.2.2⟩

/-- C9: with depth limit 1 the alpha-beta selector hands `0` to the root max
node and therefore returns the no-move value even when legal moves exist,
while the minimax selector at depth limit 1 does return a move. -/
theorem alphabeta_depth_one_no_move (S : Shared) (board : Board) (color : ℤ)
    (caching ordering : Bool) (g : Cache)
    (h : S.get_possible_moves board color ≠ []) :
    (select_move_alphabeta S board color 1 caching ordering g).1 = none ∧
      (select_move_minimax S board color 1 caching g).1 ≠ none := by
  constructor
  · show (alphabeta_max_node S board color ⊥ ⊤ 0 caching ordering Cache.empty).1 = none
    rw [alphabeta_max_node_zero S board color ⊥ ⊤ caching ordering Cache.empty fun _ => rfl]
  · show (minimax_max_node S board color 1 caching Cache.empty).1 ≠ none
    rw [show (1 : ℕ) = 0 + 1 from rfl,
      minimax_max_node_succ S board color 0 caching Cache.empty (fun _ => rfl) h]
    obtain ⟨m, rest, hm⟩ : ∃ m rest, S.get_possible_moves board color = m :: rest := by
      cases hmv : S.get_possible_moves board color with
      | nil => exact absurd hmv h
      | cons m rest => exact ⟨m, rest, rfl⟩
    simp only [hm, mmMaxLoop]
    have hval :
        (minimax_min_node S (S.play_move board color m.1 m.2) color 0 caching Cache.empty).2.1 =
          iv (compute_utility S (S.play_move board color m.1 m.2) color) := by
      rw [minimax_min_node_zero _ _ _ _ _ fun _ => rfl]
    simp only [hval]
    rw [if_pos (bot_lt_iv _)]
    exact mmMaxLoop_some _ _ _ _ _

/-- Witness for C9 at a concrete input with legal moves. -/
theorem alphabeta_depth_one_no_move_witness :
    Scex.get_possible_moves [[0]] 1 ≠ [] ∧
      (select_move_alphabeta Scex [[0]] 1 1 false false Cache.empty).1 = none ∧
      (select_move_minimax Scex [[0]] 1 1 false Cache.empty).1 ≠ none :=
  ⟨by decide,
    (alphabeta_depth_one_no_move Scex [[0]] 1 false false Cache.empty (by decide)).1,
    (alphabeta_depth_one_no_move Scex [[0]] 1 false false Cache.empty (by decide)).2⟩

/-- C6: the value of `compute_utility` is the piece count of the given color minus the
piece count of the opponent, when `get_score` reports the (dark, light)
piece counts. -/
theorem compute_utility_score_differential (S : Shared) (board : Board) (color : ℤ)
    (hs : S.get_score board = othello_get_score board)
    (hc : color = 1 ∨ color = 2) :
    compute_utility S board color =
      (countCells board color : ℤ) -
        (countCells board (if color = 1 then 2 else 1) : ℤ) := by
  rcases hc with hc | hc <;> subst hc <;>
    simp [compute_utility, hs, othello_get_score]

/-- Witness for C6 at a concrete board. -/
theorem compute_utility_score_differential_witness :
    Sdemo.get_score [[1, 2], [0, 1]] = othello_get_score [[1, 2], [0, 1]] ∧
      ((2 : ℤ) = 1 ∨ (2 : ℤ) = 2) ∧
      compute_utility Sdemo [[1, 2], [0, 1]] 2 =
        (countCells [[1, 2], [0, 1]] 2 : ℤ) -
          (countCells [[1, 2], [0, 1]] (if (2 : ℤ) = 1 then 2 else 1) : ℤ) :=
  ⟨rfl, Or.inr rfl,
    compute_utility_score_differential Sdemo [[1, 2], [0, 1]] 2 rfl (Or.inr rfl)⟩

/-- Each normalised ratio of the heuristic lies in `[-100, 100]` and is `0`
when its denominator is `0`. -/
theorem ratio_bounds (m o : ℚ) (hm : 0 ≤ m) (ho : 0 ≤ o) :
    -100 ≤ (if m + o ≠ 0 then 100 * ((m - o) / (m + o)) else 0) ∧
      (if m + o ≠ 0 then 100 * ((m - o) / (m + o)) else 0) ≤ 100 := by
  by_cases h : m + o ≠ 0
  · rw [if_pos h]
    have hpos : 0 < m + o := lt_of_le_of_ne (by linarith) (Ne.symm h)
    have h1 : (m - o) / (m + o) ≤ 1 := by
      rw [div_le_one hpos]; linarith
    have h2 : (-1 : ℚ) ≤ (m - o) / (m + o) := by
      rw [le_div_iff₀ hpos]; linarith
    constructor <;> linarith
  · rw [if_neg h]
    constructor <;> norm_num

/-- C7: the value of `compute_heuristic` is the unweighted sum of the mobility ratio, the
potential-mobility ratio and the corner-control ratio, each of which
contributes `0` when its denominator vanishes and always lies in
`[-100, 100]`. -/
theorem compute_heuristic_components (S : Shared) (board : Board) (color : ℤ) :
    compute_heuristic S board color =
        mobilityTerm S board color + potential_mobilityTerm board color +
          cornerTerm board color ∧
      (-100 ≤ mobilityTerm S board color ∧ mobilityTerm S board color ≤ 100) ∧
      (-100 ≤ potential_mobilityTerm board color ∧
        potential_mobilityTerm board color ≤ 100) ∧
      (-100 ≤ cornerTerm board color ∧ cornerTerm board color ≤ 100) := by
  refine ⟨rfl, ?_, ?_, ?_⟩
  · exact ratio_bounds _ _ (by positivity) (by positivity)
  · exact ratio_bounds _ _ (by positivity) (by positivity)
  · exact ratio_bounds _ _ (by positivity) (by positivity)

end Othello
